import Mathlib

/-!
Verification development for the `githubrepodocs` Azure Function handler
(`src/function_app.py`).  The handler is shallowly embedded as a pure Lean
function over a `World` of external-service oracles (environment, blob store,
OCR service, chat model, clock, random source) and a `Request`.  External
effects are recorded in an explicit `Trace`.  The Python string operations and
the `json` standard-library behaviour that the handler relies on are modelled
by executable Lean functions below.
-/

set_option maxRecDepth 10000

/-! ## Python string-operation models -/

/-- The characters stripped by Python `str.strip()` (the `str.isspace` set). -/
def pyWsChars : List Char :=
  [' ', '\t', '\n', '\r', '\x0b', '\x0c', '\x1c', '\x1d', '\x1e', '\x1f',
   '\x85', '\xa0', '\u1680', '\u2000', '\u2001', '\u2002', '\u2003', '\u2004',
   '\u2005', '\u2006', '\u2007', '\u2008', '\u2009', '\u200a', '\u2028',
   '\u2029', '\u202f', '\u205f', '\u3000']

/-- Python `str.isspace` membership, the set `str.strip()` removes. -/
def pyWs (c : Char) : Bool :=
  pyWsChars.contains c

/-- The whitespace characters of the JSON grammar
(`json.decoder.WHITESPACE`). -/
def jWsChars : List Char :=
  [' ', '\t', '\n', '\r']

/-- Whitespace skipped by the JSON grammar. -/
def jWs (c : Char) : Bool :=
  jWsChars.contains c

/-- Python `str.strip()` on a character list: drop `pyWs` from both ends. -/
def pyStripL (l : List Char) : List Char :=
  ((l.dropWhile pyWs).reverse.dropWhile pyWs).reverse

/-- Python `str.strip()`. -/
def pyStripS (s : String) : String :=
  ⟨pyStripL s.data⟩

/-- Fueled worker for Python `str.replace`: replaces non-overlapping
occurrences of `o :: os` left to right.  The fuel is the length of the
remaining input, so it is never exhausted when called with `cs.length`. -/
def pyReplaceGo (o : Char) (os new : List Char) : Nat → List Char → List Char
  | 0, cs => cs
  | _ + 1, [] => []
  | f + 1, c :: rest =>
    if List.isPrefixOf (o :: os) (c :: rest) then
      new ++ pyReplaceGo o os new f (rest.drop os.length)
    else
      c :: pyReplaceGo o os new f rest

/-- Python `str.replace(old, new)` (all occurrences, left to right).  The
handler only calls it with non-empty `old`; an empty `old` is returned
unchanged here. -/
def pyReplace (old new s : String) : String :=
  match old.data with
  | [] => s
  | o :: os => ⟨pyReplaceGo o os new.data s.data.length s.data⟩

/-- Python `sep.join(parts)` / also used for `", ".join`. -/
def joinSep (sep : String) : List String → String
  | [] => ""
  | h :: t => t.foldl (fun acc x => acc ++ sep ++ x) h

/-- The last `/`-separated segment of a string, i.e. Python
`s.split("/")[-1]`. -/
def lastSlashSegment (s : String) : String :=
  ⟨(s.data.reverse.takeWhile (fun c => c != '/')).reverse⟩

/-! ## JSON values

`json.loads` output is modelled structurally.  Numbers are carried by their
source lexeme (e.g. `"1.0"`, `"-2e3"`, and the Python extensions `"NaN"`,
`"Infinity"`, `"-Infinity"`); Python's int/float re-formatting on output is
abstracted by echoing the lexeme.  Objects are carried as the parsed key/value
list; Python's dict construction keeps the last binding of a duplicated key,
which lookups below mirror. -/

inductive Json where
  | null : Json
  | bool (b : Bool) : Json
  | num (lexeme : String) : Json
  | str (s : String) : Json
  | arr (elems : List Json) : Json
  | obj (members : List (String × Json)) : Json

/-- Hex digit value, for `\uXXXX` string escapes. -/
def hexVal (c : Char) : Option Nat :=
  if '0' ≤ c ∧ c ≤ '9' then some (c.toNat - '0'.toNat)
  else if 'a' ≤ c ∧ c ≤ 'f' then some (c.toNat - 'a'.toNat + 10)
  else if 'A' ≤ c ∧ c ≤ 'F' then some (c.toNat - 'A'.toNat + 10)
  else none

/-- Single-character JSON string escapes. -/
def escChar (c : Char) : Option Char :=
  if c = '"' then some '"'
  else if c = '\\' then some '\\'
  else if c = '/' then some '/'
  else if c = 'b' then some '\x08'
  else if c = 'f' then some '\x0c'
  else if c = 'n' then some '\n'
  else if c = 'r' then some '\r'
  else if c = 't' then some '\t'
  else none

/-- Scan a JSON string body (the opening quote already consumed): returns the
decoded content and the input after the closing quote.  `\uXXXX` escapes are
decoded, combining valid surrogate pairs; lone surrogates (which Python keeps
in its strings) are not representable in Lean strings and are rejected.  The
fuel only needs to cover the input length. -/
def parseStrB : Nat → List Char → Option (List Char × List Char)
  | 0, _ => none
  | _ + 1, [] => none
  | f + 1, c :: t =>
    if c = '"' then some ([], t)
    else if c = '\\' then
      match t with
      | [] => none
      | e :: t₂ =>
        match escChar e with
        | some ec => (parseStrB f t₂).map (fun p => (ec :: p.1, p.2))
        | none =>
          if e = 'u' then
            match t₂ with
            | h₁ :: h₂ :: h₃ :: h₄ :: t₃ =>
              match hexVal h₁, hexVal h₂, hexVal h₃, hexVal h₄ with
              | some a, some b, some c₃, some d =>
                let n := ((a * 16 + b) * 16 + c₃) * 16 + d
                if 0xd800 ≤ n ∧ n ≤ 0xdbff then
                  match t₃ with
                  | '\\' :: 'u' :: g₁ :: g₂ :: g₃ :: g₄ :: t₄ =>
                    match hexVal g₁, hexVal g₂, hexVal g₃, hexVal g₄ with
                    | some a', some b', some c', some d' =>
                      let m := ((a' * 16 + b') * 16 + c') * 16 + d'
                      if 0xdc00 ≤ m ∧ m ≤ 0xdfff then
                        (parseStrB f t₄).map (fun p =>
                          (Char.ofNat (0x10000 + (n - 0xd800) * 0x400 + (m - 0xdc00)) :: p.1, p.2))
                      else none
                    | _, _, _, _ => none
                  | _ => none
                else if 0xdc00 ≤ n ∧ n ≤ 0xdfff then none
                else (parseStrB f t₃).map (fun p => (Char.ofNat n :: p.1, p.2))
              | _, _, _, _ => none
            | _ => none
          else none
    else if c.toNat < 0x20 then none
    else (parseStrB f t).map (fun p => (c :: p.1, p.2))

/-- The optional-fraction step of the JSON number grammar (`(\.\d+)?`):
a `.` not followed by a digit is not consumed. -/
def fracPart (acc rest : List Char) : List Char × List Char :=
  match rest with
  | '.' :: r =>
    let ds := r.takeWhile Char.isDigit
    if ds.isEmpty then (acc, rest) else (acc ++ '.' :: ds, r.dropWhile Char.isDigit)
  | _ => (acc, rest)

/-- The optional exponent sign (`[+-]?`). -/
def signSplit (r : List Char) : List Char × List Char :=
  match r with
  | '+' :: rr => (['+'], rr)
  | '-' :: rr => (['-'], rr)
  | _ => ([], r)

/-- The optional-exponent step of the JSON number grammar
(`([eE][+-]?\d+)?`): an `e`/`E` not followed by (a sign and) a digit is not
consumed. -/
def expPart (acc rest : List Char) : List Char × List Char :=
  match rest with
  | e :: r =>
    if e = 'e' ∨ e = 'E' then
      let ds := (signSplit r).2.takeWhile Char.isDigit
      if ds.isEmpty then (acc, rest)
      else (acc ++ e :: ((signSplit r).1 ++ ds), (signSplit r).2.dropWhile Char.isDigit)
    else (acc, rest)
  | [] => (acc, rest)

/-- Second half of the JSON number grammar: the optional fraction, then the
optional exponent, appended to the already-scanned (sign and) integer part
`acc`.  Mirrors `json.scanner.NUMBER_RE`. -/
def afterIntPart (acc rest : List Char) : List Char × List Char :=
  expPart (fracPart acc rest).1 (fracPart acc rest).2

/-- The optional leading minus of a JSON number (`-?`). -/
def numSign (cs : List Char) : List Char × List Char :=
  match cs with
  | '-' :: t => (['-'], t)
  | _ => ([], cs)

/-- JSON number scanner (`-?(0|[1-9]\d*)(\.\d+)?([eE][+-]?\d+)?`): returns the
lexeme and the rest.  Leading zeros stop the integer part, as in Python. -/
def parseNumber (cs : List Char) : Option (List Char × List Char) :=
  match (numSign cs).2 with
  | [] => none
  | '0' :: t => some (afterIntPart ((numSign cs).1 ++ ['0']) t)
  | c :: _ =>
    if c.isDigit then
      some (afterIntPart ((numSign cs).1 ++ (numSign cs).2.takeWhile Char.isDigit)
        ((numSign cs).2.dropWhile Char.isDigit))
    else none

/-- Parser modes: a single JSON value, the tail of a non-empty array (starting
at the first element), or the members of a non-empty object (starting at the
first key, leading whitespace already skipped). -/
inductive PMode where
  | val : PMode
  | elems : PMode
  | members : PMode

/-- The JSON parser, mirroring Python's `json.scanner.py_make_scanner`:
strings, objects, arrays, `true`/`false`/`null`, the Python extensions
`NaN`/`Infinity`/`-Infinity`, and numbers.  `.elems`/`.members` results are
packaged as `.arr`/`.obj` values.  Structural on the fuel so that it reduces
in the kernel. -/
def parseCore : Nat → PMode → List Char → Option (Json × List Char)
  | 0, _, _ => none
  | f + 1, .val, cs =>
    match cs with
    | [] => none
    | c :: t =>
      if c = '"' then
        (parseStrB (t.length + 1) t).map (fun p => (Json.str ⟨p.1⟩, p.2))
      else if c = '\x7b' then
        match t.dropWhile jWs with
        | '\x7d' :: r => some (.obj [], r)
        | u => parseCore f .members u
      else if c = '[' then
        match t.dropWhile jWs with
        | ']' :: r => some (.arr [], r)
        | u => parseCore f .elems u
      else if c = 't' then
        match t with
        | 'r' :: 'u' :: 'e' :: r => some (.bool true, r)
        | _ => none
      else if c = 'f' then
        match t with
        | 'a' :: 'l' :: 's' :: 'e' :: r => some (.bool false, r)
        | _ => none
      else if c = 'n' then
        match t with
        | 'u' :: 'l' :: 'l' :: r => some (.null, r)
        | _ => none
      else if c = 'N' then
        match t with
        | 'a' :: 'N' :: r => some (.num "NaN", r)
        | _ => none
      else if c = 'I' then
        match t with
        | 'n' :: 'f' :: 'i' :: 'n' :: 'i' :: 't' :: 'y' :: r => some (.num "Infinity", r)
        | _ => none
      else if c = '-' then
        match t with
        | 'I' :: 'n' :: 'f' :: 'i' :: 'n' :: 'i' :: 't' :: 'y' :: r => some (.num "-Infinity", r)
        | _ => (parseNumber cs).map (fun p => (Json.num ⟨p.1⟩, p.2))
      else if c.isDigit then
        (parseNumber cs).map (fun p => (Json.num ⟨p.1⟩, p.2))
      else none
  | f + 1, .elems, cs =>
    match parseCore f .val (cs.dropWhile jWs) with
    | some (v, r) =>
      (match r.dropWhile jWs with
       | ',' :: r₂ =>
         (match parseCore f .elems r₂ with
          | some (.arr vs, r₃) => some (.arr (v :: vs), r₃)
          | _ => none)
       | ']' :: r₂ => some (.arr [v], r₂)
       | _ => none)
    | none => none
  | f + 1, .members, cs =>
    match cs with
    | '"' :: t =>
      (match parseStrB (t.length + 1) t with
       | some (k, r) =>
         (match r.dropWhile jWs with
          | ':' :: r₂ =>
            (match parseCore f .val (r₂.dropWhile jWs) with
             | some (v, r₃) =>
               (match r₃.dropWhile jWs with
                | ',' :: r₄ =>
                  (match parseCore f .members (r₄.dropWhile jWs) with
                   | some (.obj ms, r₅) => some (.obj ((⟨k⟩, v) :: ms), r₅)
                   | _ => none)
                | '\x7d' :: r₄ => some (.obj [(⟨k⟩, v)], r₄)
                | _ => none)
             | none => none)
          | _ => none)
       | none => none)
    | _ => none

/-- Drop trailing JSON whitespace. -/
def trimEndJws (l : List Char) : List Char :=
  (l.reverse.dropWhile jWs).reverse

/-- Python `json.loads`: skip surrounding JSON whitespace, parse one value,
and require it to consume the whole input (`Extra data` otherwise).  `none`
models a raised `json.JSONDecodeError`. -/
def json_loads (s : String) : Option Json :=
  match parseCore ((trimEndJws (s.data.dropWhile jWs)).length + 1) .val
      (trimEndJws (s.data.dropWhile jWs)) with
  | some (v, []) => some v
  | _ => none

/-! ## `json.dumps` model -/

/-- Serialization of one character of a JSON string under `ensure_ascii=True`:
the two-character escapes, `\uXXXX` for other control and non-ASCII
characters (astral characters as surrogate pairs). -/
def dumpChar (c : Char) : String :=
  if c = '"' then "\\\""
  else if c = '\\' then "\\\\"
  else if c = '\n' then "\\n"
  else if c = '\r' then "\\r"
  else if c = '\t' then "\\t"
  else if c = '\x08' then "\\b"
  else if c = '\x0c' then "\\f"
  else if c.toNat < 0x20 ∨ 0x7e < c.toNat then
    let hex4 := fun (n : Nat) =>
      let dig := fun (k : Nat) => (Nat.toDigits 16 k).headD '0'
      ⟨['\\', 'u', dig (n / 4096 % 16), dig (n / 256 % 16), dig (n / 16 % 16), dig (n % 16)]⟩
    if c.toNat ≤ 0xffff then hex4 c.toNat
    else
      hex4 (0xd800 + (c.toNat - 0x10000) / 0x400) ++ hex4 (0xdc00 + (c.toNat - 0x10000) % 0x400)
  else ⟨[c]⟩

/-- A JSON string literal as `json.dumps` prints it. -/
def dumpStr (s : String) : String :=
  "\"" ++ joinSep "" (s.data.map dumpChar) ++ "\""

/-- Fueled worker for `json.dumps` with the default separators
`", "` and `": "`. -/
def json_dumpsF : Nat → Json → String
  | 0, _ => ""
  | f + 1, j =>
    match j with
    | .null => "null"
    | .bool true => "true"
    | .bool false => "false"
    | .num lexeme => lexeme
    | .str s => dumpStr s
    | .arr xs => "[" ++ joinSep ", " (xs.map (json_dumpsF f)) ++ "]"
    | .obj ms =>
      "\x7b" ++ joinSep ", " (ms.map (fun m => dumpStr m.1 ++ ": " ++ json_dumpsF f m.2)) ++ "\x7d"

/-- Python `json.dumps(x)` with default options, with an explicit recursion
budget.  The budget plays no semantic role as long as it exceeds the nesting
depth of the value (a `Json` value parsed from a string `s` has depth at most
`s.length`, since every nesting level consumes at least one character); call
sites pick a budget that covers the values they can receive. -/
def json_dumps (fuel : Nat) (j : Json) : String :=
  json_dumpsF fuel j

/-- Fueled worker for `json.dumps(x, indent=2)`; `lvl` is the current nesting
depth.  With an indent, Python separates items by `",\n" + padding` and keys
by `": "`, and prints empty containers as `[]`/`{}`. -/
def json_dumpsIndentF (pad : Nat) : Nat → Nat → Json → String
  | 0, _, _ => ""
  | f + 1, lvl, j =>
    let nl := fun (k : Nat) => "\n" ++ ⟨List.replicate (pad * k) ' '⟩
    match j with
    | .arr [] => "[]"
    | .obj [] => "\x7b\x7d"
    | .arr xs =>
      "[" ++ nl (lvl + 1) ++
        joinSep ("," ++ nl (lvl + 1)) (xs.map (json_dumpsIndentF pad f (lvl + 1))) ++
        nl lvl ++ "]"
    | .obj ms =>
      "\x7b" ++ nl (lvl + 1) ++
        joinSep ("," ++ nl (lvl + 1))
          (ms.map (fun m => dumpStr m.1 ++ ": " ++ json_dumpsIndentF pad f (lvl + 1) m.2)) ++
        nl lvl ++ "\x7d"
    | v => json_dumpsF (f + 1) v

/-- Python `json.dumps(x, indent=2)`, with an explicit recursion budget (see
`json_dumps`). -/
def json_dumpsIndent2 (fuel : Nat) (j : Json) : String :=
  json_dumpsIndentF 2 fuel 0 j

/-! ## Python truthiness and `str()` on parsed JSON -/

/-- Whether a JSON number lexeme denotes the value zero (so that the parsed
Python `int`/`float` is falsy).  The mantissa digits are all `0` exactly when
the value is zero; `NaN`/`Infinity` have no leading digit and are non-zero. -/
def jsonNumIsZero (lexeme : String) : Bool :=
  let l := match lexeme.data with
    | '-' :: t => t
    | t => t
  match l with
  | c :: _ =>
    c.isDigit &&
      ((l.takeWhile (fun c => c != 'e' && c != 'E')).filter Char.isDigit).all (· == '0')
  | [] => false

/-- Python truthiness (`bool(x)`) of a `json.loads` result. -/
def pyTruthyJson : Json → Bool
  | .null => false
  | .bool b => b
  | .num lexeme => !jsonNumIsZero lexeme
  | .str s => !(s == "")
  | .arr xs => !xs.isEmpty
  | .obj ms => !ms.isEmpty

/-- The Python type name of a `json.loads` result, as it appears in an
`AttributeError` message. -/
def jsonTypeName : Json → String
  | .null => "NoneType"
  | .bool _ => "bool"
  | .num lexeme =>
    if lexeme.data.any (fun c => c == '.' || c == 'e' || c == 'E' || c == 'n' || c == 'y')
    then "float" else "int"
  | .str _ => "str"
  | .arr _ => "list"
  | .obj _ => "dict"

/-- Fueled worker for Python `str()`/`repr()` of a parsed JSON value, used
only for the f-string interpolation of a non-string `case_id`.  Numbers are
rendered by their lexeme (Python's float re-formatting is abstracted) and
strings inside containers are repr'd without escaping. -/
def pyStrF : Nat → Bool → Json → String
  | 0, _, _ => ""
  | f + 1, top, j =>
    match j with
    | .null => "None"
    | .bool true => "True"
    | .bool false => "False"
    | .num lexeme => lexeme
    | .str s => if top then s else "'" ++ s ++ "'"
    | .arr xs => "[" ++ joinSep ", " (xs.map (pyStrF f false)) ++ "]"
    | .obj ms =>
      "\x7b" ++
        joinSep ", " (ms.map (fun m => "'" ++ m.1 ++ "': " ++ pyStrF f false m.2)) ++
      "\x7d"

/-- Python `str(x)` of a parsed JSON value (f-string interpolation), with an
explicit recursion budget (see `json_dumps`). -/
def pyStr (fuel : Nat) (j : Json) : String :=
  pyStrF fuel true j

/-! ## Request, world of external services, and effect trace -/

/-- One uploaded multipart file under the `files` field: its client-supplied
filename and its byte content (`file.stream.read()`), bytes as `Nat`s. -/
structure UploadFile where
  filename : String
  content : List Nat
deriving DecidableEq

/-- The incoming HTTP request: the query parameters (`req.params`), the raw
body (whose JSON parse models `req.get_json()`), and the uploaded files under
the `files` multipart field (`req.files.getlist("files")`). -/
structure Request where
  params : String → Option String
  body : String
  files : List UploadFile

/-- One chat-completion call as issued through the AzureOpenAI client.  The
temperature is recorded in tenths (0 and 2 for the two calls). -/
structure ChatCall where
  modelName : String
  systemMsg : String
  userMsg : String
  temperatureTenths : Nat
  maxTokens : Nat
deriving DecidableEq

/-- An attachment assembled from blob storage: `blob.name.split("/")[-1]` and
the downloaded bytes. -/
structure Attachment where
  fileName : String
  fileBytes : List Nat
deriving DecidableEq

/-- The record upserted into Cosmos DB. -/
structure CaseDocument where
  id : String
  case_id : String
  timestamp : String
  ocr_text : String
  extracted_entities : Json
  summary_result : Json

/-- A `func.HttpResponse`: body, optional explicit mimetype, status code. -/
structure HttpResponse where
  body : String
  mimetype : Option String
  status : Nat
deriving DecidableEq

/-- The external-service operations performed while handling one request:
blob uploads (path and bytes), blob list operations (prefixes), blob
downloads (names), OCR analysis calls (bytes), chat-completion calls, and
Cosmos upserts. -/
structure Trace where
  blobUploads : List (String × List Nat)
  blobLists : List String
  blobDownloads : List String
  ocrCalls : List (List Nat)
  chatCalls : List ChatCall
  upserts : List CaseDocument

/-- The trace of a request that performed no external-service operation. -/
def emptyTrace : Trace :=
  { blobUploads := [], blobLists := [], blobDownloads := [], ocrCalls := [],
    chatCalls := [], upserts := [] }

/-- The environment and the behaviour of the four external services during
one request: `env` is `os.getenv`; `blobs` is the blob container's contents
(name and bytes; the service's listing order is abstracted as this list's
order); `ocr` is one `begin_analyze_document(...).result()` call, returning
the pages with their lines' contents, or `.error` when the call raises;
`chat` returns `response.choices[0].message.content` for a completion call;
`jsonErrMsg` is the `str()` of the `json.JSONDecodeError` that
`json.loads` raises on a given invalid input; `randSeed` drives
`random.randint(10, 99)` and `nowIso` is `datetime.utcnow().isoformat()`. -/
structure World where
  env : String → Option String
  blobs : List (String × List Nat)
  ocr : List Nat → Except String (List (List String))
  chat : ChatCall → String
  jsonErrMsg : String → String
  randSeed : Nat
  nowIso : String

/-- Model of `random.randint(10, 99)`: an arbitrary seed mapped into the
inclusive range `[10, 99]`. -/
def randint1099 (seed : Nat) : Nat :=
  10 + seed % 90

/-! ## The handler's stages -/

/-- The ten required configuration keys, in the source's dict order. -/
def requiredEnvKeys : List String :=
  ["BLOB_CONN_STR", "BLOB_CONTAINER_NAME", "DOC_INT_KEY", "DOC_INT_ENDPOINT",
   "AZURE_API_ENDPOINT", "AZURE_API_KEY", "AZURE_API_VERSION",
   "COSMOS_CONN_STR", "COSMOS_DB_NAME", "COSMOS_CONTAINER_NAME"]

/-- Python truthiness of `os.getenv`'s result: `None` and `""` are falsy. -/
def envTruthy : Option String → Bool
  | none => false
  | some s => !(s == "")

/-- `missing_vars`: the required keys whose value is falsy, in order. -/
def missingVars (env : String → Option String) : List String :=
  requiredEnvKeys.filter (fun k => !envTruthy (env k))

/-- The message of the `AttributeError` raised by `x.get(...)` on a non-dict. -/
def attrErrMsg (typeName : String) : String :=
  "'" ++ typeName ++ "' object has no attribute 'get'"

/-- `dict.get` on the parsed member list: Python's dict construction keeps the
last binding of a duplicated key. -/
def lookupLast (ms : List (String × Json)) (k : String) : Option Json :=
  ((ms.filter (fun m => m.1 == k)).getLast?).map Prod.snd

/-- Reading `case_id` from the JSON body once the query parameter was falsy:
`req.get_json()` failing to parse (`ValueError`) is swallowed, leaving no case
id; a non-object body makes `req_body.get` raise an `AttributeError`, which
the inner `except ValueError` does not catch. -/
def resolveFromBody (req : Request) : Except String (Option Json) :=
  match json_loads req.body with
  | none => .ok none
  | some (.obj ms) =>
    .ok (match lookupLast ms "case_id" with
         | some v => if pyTruthyJson v then some v else none
         | none => none)
  | some j => .error (attrErrMsg (jsonTypeName j))

/-- Case-identifier resolution (`req.params.get('case_id')`, falling back to
the JSON body when the parameter is absent or empty).  `.ok none` means the
final `case_id` is falsy, `.error` carries an escaping exception message. -/
def resolveCaseId (req : Request) : Except String (Option Json) :=
  match req.params "case_id" with
  | some c => if c == "" then resolveFromBody req else .ok (some (.str c))
  | none => resolveFromBody req

/-- The `str()` of the resolved case id as interpolated into f-strings.  The
recursion budget covers any value parsed from the request body. -/
def caseStr (req : Request) (cidJ : Json) : String :=
  pyStr (req.body.data.length + 1) cidJ

/-- Store bytes under a blob path with `overwrite=True`. -/
def upsertBlob (container : List (String × List Nat)) (name : String)
    (bytes : List Nat) : List (String × List Nat) :=
  if container.any (fun e => e.1 == name) then
    container.map (fun e => if e.1 == name then (name, bytes) else e)
  else
    container ++ [(name, bytes)]

/-- The upload loop: each uploaded file's name has backslashes normalized to
forward slashes and is stored at `{case_id}/{filename}`.  Returns the
container after the uploads and the list of performed uploads. -/
def doUploads (cid : String) (files : List UploadFile)
    (container : List (String × List Nat)) :
    List (String × List Nat) × List (String × List Nat) :=
  files.foldl
    (fun acc f =>
      let path := cid ++ "/" ++ pyReplace "\\" "/" f.filename
      (upsertBlob acc.1 path f.content, acc.2 ++ [(path, f.content)]))
    (container, [])

/-- The container contents at the time of the blob scan (after uploads). -/
def containerAfter (w : World) (req : Request) (cid : String) :
    List (String × List Nat) :=
  (doUploads cid req.files w.blobs).1

/-- `list_blobs(name_starts_with=f"{case_id}/")`. -/
def blobListOf (w : World) (req : Request) (cid : String) :
    List (String × List Nat) :=
  (containerAfter w req cid).filter
    (fun e => List.isPrefixOf (cid ++ "/").data e.1.data)

/-- The attachments assembled from the scanned blobs. -/
def attachmentsOf (w : World) (req : Request) (cid : String) : List Attachment :=
  (blobListOf w req cid).map
    (fun e => { fileName := lastSlashSegment e.1, fileBytes := e.2 })

/-- `analyze_files`: one OCR call; every recognized line's content over all
pages, newline-joined.  An exception during analysis is logged and yields the
empty string instead of aborting the batch. -/
def analyze_files (w : World) (file_bytes : List Nat) : String :=
  match w.ocr file_bytes with
  | .ok pages => joinSep "\n" pages.flatten
  | .error _ => ""

/-- The per-attachment OCR outputs, in attachment order (the sequential
reading of `executor.map`). -/
def ocrResultsOf (w : World) (req : Request) (cid : String) : List String :=
  (attachmentsOf w req cid).map (fun a => analyze_files w a.fileBytes)

/-- `ocr_text`: the newline-join of the per-attachment OCR outputs. -/
def ocrTextOf (w : World) (req : Request) (cid : String) : String :=
  joinSep "\n" (ocrResultsOf w req cid)

/-- The hardcoded `api_payload["email"]["description"]`. -/
def emailDescription : String :=
  "System controls detected that the loan amount credited " ++
  "exceeds the sanctioned amount. Preliminary review indicates " ++
  "possible amount manipulation during disbursement."

/-- The entity-extraction prompt (the f-string's literal indentation kept). -/
def entityPrompt (ocrText : String) : String :=
  "Extract ONLY the following entities. Return STRICT JSON.\n" ++
  "                    Applicant Name\n" ++
  "                    Customer ID\n" ++
  "                    Branch Code\n" ++
  "                    Requested Amount\n" ++
  "                    Sanctioned Amount\n" ++
  "\n" ++
  "                    EMAIL:\n" ++
  "                    " ++ emailDescription ++ "\n" ++
  "\n" ++
  "                    DOCUMENT TEXT:\n" ++
  "                    " ++ ocrText ++ "\n" ++
  "                    "

/-- The first chat-completion call (entity extraction, temperature 0). -/
def entityCall (ocrText : String) : ChatCall :=
  { modelName := "gpt-4o-mini",
    systemMsg := "You extract structured fraud investigation entities.",
    userMsg := entityPrompt ocrText,
    temperatureTenths := 0,
    maxTokens := 400 }

/-- The raw content of the entity-extraction response. -/
def entityRawOf (w : World) (req : Request) (cid : String) : String :=
  w.chat (entityCall (ocrTextOf w req cid))

/-- The code-fence-stripping step applied to a raw model output at both parse
sites: strip, and if the result starts with three backticks, delete every
occurrence of a fenced-`json` opener and of triple backticks, then strip
again. -/
def stripCodeFence (raw : String) : String :=
  let cleaned := pyStripS raw
  if List.isPrefixOf "```".data cleaned.data then
    pyStripS (pyReplace "```" "" (pyReplace "```json" "" cleaned))
  else cleaned

/-- The entity-extraction output after code-fence stripping (`cleaned`). -/
def entityCleanedOf (w : World) (req : Request) (cid : String) : String :=
  stripCodeFence (entityRawOf w req cid)

/-- The summary-generation prompt (the f-string's literal indentation kept).
`entsFuel` is the printing budget for the embedded
`json.dumps(cleaned_entities, indent=2)`. -/
def summaryPrompt (cid : String) (ents : Json) (entsFuel : Nat)
    (ocrText : String) : String :=
  "You are a senior bank fraud investigation officer.\n" ++
  "                Using ONLY the data below, generate a clear investigation summary.\n" ++
  "                CASE ID: " ++ cid ++ " \n" ++
  "                EXTRACTED ENTITIES: " ++ json_dumpsIndent2 entsFuel ents ++ "\n" ++
  "                OCR DOCUMENT TEXT: " ++ (⟨ocrText.data.take 2000⟩ : String) ++ "\n" ++
  "                \n" ++
  "                Return STRICT JSON with:\n" ++
  "                - case_id\n" ++
  "                - summary (3-4 sentences)\n" ++
  "                - key_findings (bullet list)\n" ++
  "                - risk_level (LOW / MEDIUM / HIGH)\n" ++
  "                - recommended_action (single sentence) \n" ++
  "                No markdown. No explanations. \n" ++
  "                "

/-- The second chat-completion call (summary generation, temperature 0.2). -/
def summaryCall (cid : String) (ents : Json) (entsFuel : Nat)
    (ocrText : String) : ChatCall :=
  { modelName := "gpt-4o-mini",
    systemMsg := "You produce fraud investigation summaries.",
    userMsg := summaryPrompt cid ents entsFuel ocrText,
    temperatureTenths := 2,
    maxTokens := 500 }

/-- The second chat-completion call as the handler issues it: the printing
budget for the extracted entities is taken from the text they were parsed
from. -/
def summaryCallOf (w : World) (req : Request) (cid : String) (ents : Json) :
    ChatCall :=
  summaryCall cid ents ((entityCleanedOf w req cid).data.length + 1)
    (ocrTextOf w req cid)

/-- The summary-generation output after code-fence stripping
(`final_raw_output`). -/
def summaryCleanedOf (w : World) (req : Request) (cid : String) (ents : Json) :
    String :=
  stripCodeFence (w.chat (summaryCallOf w req cid ents))

/-! ## The handler -/

/-- The body of the handler's `try` block.  `.error` carries the message and
the trace of an exception escaping to the top-level `except` handler. -/
def githubrepodocsCore (w : World) (req : Request) :
    Except (String × Trace) (HttpResponse × Trace) :=
  match missingVars w.env with
  | k :: ks =>
    .ok ({ body := "Missing required environment variables: " ++
             joinSep ", " (k :: ks),
           mimetype := none, status := 500 }, emptyTrace)
  | [] =>
    match resolveCaseId req with
    | .error msg => .error (msg, emptyTrace)
    | .ok none =>
      .ok ({ body := json_dumps 4 (.obj [("error", .str "case_id is required")]),
             mimetype := some "application/json", status := 400 }, emptyTrace)
    | .ok (some cidJ) =>
      let cid := caseStr req cidJ
      let tr₁ : Trace := { emptyTrace with
        blobUploads := (doUploads cid req.files w.blobs).2,
        blobLists := [cid ++ "/"],
        blobDownloads := (blobListOf w req cid).map Prod.fst }
      match attachmentsOf w req cid with
      | [] =>
        .ok ({ body := json_dumps 4 (.obj
                 [("error", .str ("No attachments found in Blob for case " ++ cid))]),
               mimetype := some "application/json", status := 404 }, tr₁)
      | _ :: _ =>
        let tr₂ : Trace :=
          { tr₁ with ocrCalls := (attachmentsOf w req cid).map Attachment.fileBytes }
        let cleaned := entityCleanedOf w req cid
        let tr₃ : Trace := { tr₂ with chatCalls := [entityCall (ocrTextOf w req cid)] }
        match json_loads cleaned with
        | none =>
          .ok ({ body := json_dumps 4 (.obj
                   [("error", .str "Invalid JSON returned by model"),
                    ("raw_output", .str cleaned)]),
                 mimetype := some "application/json", status := 500 }, tr₃)
        | some entities =>
          let finalCleaned := summaryCleanedOf w req cid entities
          let tr₄ : Trace := { tr₃ with
            chatCalls := [entityCall (ocrTextOf w req cid),
                          summaryCallOf w req cid entities] }
          match json_loads finalCleaned with
          | none => .error (w.jsonErrMsg finalCleaned, tr₄)
          | some summary =>
            let doc : CaseDocument :=
              { id := cid ++ "-" ++ toString (randint1099 w.randSeed),
                case_id := cid,
                timestamp := w.nowIso,
                ocr_text := ocrTextOf w req cid,
                extracted_entities := entities,
                summary_result := summary }
            .ok ({ body := json_dumpsIndent2 (finalCleaned.data.length + 1) summary,
                   mimetype := some "application/json", status := 200 },
                 { tr₄ with upserts := [doc] })

/-- The HTTP handler `githubrepodocs`: the `try` body, with any escaping
exception converted by the top-level `except` handler into a generic 500
response carrying the exception's string message. -/
def githubrepodocs (w : World) (req : Request) : HttpResponse × Trace :=
  match githubrepodocsCore w req with
  | .ok r => r
  | .error e =>
    ({ body := json_dumps 4 (.obj [("error", .str "Internal server error"),
                                   ("message", .str e.1)]),
       mimetype := some "application/json", status := 500 }, e.2)

/-! ## Model of the 4-worker pooled OCR map

`executor.map(analyze_files, ...)` runs the per-attachment calls on a pool of
4 workers and yields the results in input order.  A pooled execution is
modelled by a completion schedule: the list of task indices in the order in
which workers finish them (for a 4-worker pool this is some permutation of
the indices).  The events pair each completed index with its result;
gathering reads the result of index 0, 1, ... out of the events. -/

/-- The completion events of a pooled run of `f` over `xs` under a completion
schedule. -/
def poolEvents (f : Attachment → String) (xs : List Attachment)
    (schedule : List Nat) : List (Nat × String) :=
  schedule.map (fun i => (i, f (xs.getD i { fileName := "", fileBytes := [] })))

/-- Gather pooled results in input order (the iteration order of
`executor.map`'s result). -/
def gatherResults (n : Nat) (events : List (Nat × String)) : List String :=
  (List.range n).map (fun i => (((events.find? (fun e => e.1 == i)).map Prod.snd)).getD "")

/-- The concatenated OCR text produced by a pooled execution under a given
completion schedule. -/
def pooledOcrText (w : World) (xs : List Attachment) (schedule : List Nat) :
    String :=
  joinSep "\n" (gatherResults xs.length
    (poolEvents (fun a => analyze_files w a.fileBytes) xs schedule))

/-- The same world with every failing OCR call replaced by a call that
succeeds with no pages: the reference world for the claim that a per-file
OCR failure is equivalent to that file contributing empty text. -/
def okEmptyOcr (w : World) : World :=
  { w with ocr := fun b =>
      match w.ocr b with
      | .error _ => .ok []
      | .ok r => .ok r }


/-- Whether `pat` occurs as a contiguous substring of `l`. -/
def hasInfix (pat l : List Char) : Bool :=
  (List.range (l.length + 1)).any (fun i => List.isPrefixOf pat (l.drop i))

/-- The fenced form of a model output: the content wrapped in triple
backticks, with an optional `json` tag after the opening fence (the shape the
spec says the code-fence stripping tolerates). -/
def fenceWrap (tag : Bool) (s : String) : String :=
  ⟨(if tag then "```json\n".data else "```\n".data) ++ s.data ++ "\n```".data⟩

/-- The characters that can start a JSON value accepted by the scanner. -/
def startsChar (c : Char) : Bool :=
  c == '"' || c == '\x7b' || c == '[' || c == 't' || c == 'f' || c == 'n' ||
  c == 'N' || c == 'I' || c == '-' || c.isDigit

/-! ## Concrete sample environments, worlds and requests (used by witnesses) -/

/-- An environment providing every required key. -/
def fullEnv : String → Option String := fun _ => some "x"

/-- A fully-working sample world: one blob under case `c1`, an OCR oracle
that succeeds on that blob's bytes and raises on anything else, and a chat
oracle answering the entity call (max_tokens 400) with `[1]` and the summary
call with `true`. -/
def sampleWorld : World :=
  { env := fullEnv,
    blobs := [("c1/a.pdf", [1, 2]), ("zz/b.pdf", [3])],
    ocr := fun b => if b == [1, 2] then .ok [["hello", "world"], ["page2"]] else .error "boom",
    chat := fun c => if c.maxTokens == 400 then "[1]" else "true",
    jsonErrMsg := fun _ => "Expecting value: line 1 column 1 (char 0)",
    randSeed := 7,
    nowIso := "2026-02-08T10:15:00" }

/-- A request carrying `case_id=c1` as a query parameter, nothing else. -/
def sampleReq : Request :=
  { params := fun k => if k == "case_id" then some "c1" else none,
    body := "", files := [] }

/-- Like `sampleWorld`, but the entity-extraction model answers with
non-JSON text. -/
def sampleWorldBadEntity : World :=
  { sampleWorld with chat := fun c => if c.maxTokens == 400 then "not json" else "x" }

/-- Like `sampleWorld`, but the summary model answers with non-JSON text. -/
def sampleWorldBadSummary : World :=
  { sampleWorld with chat := fun c => if c.maxTokens == 400 then "[1]" else "oops" }

/-- An environment missing two required keys. -/
def envMissingTwo : String → Option String :=
  fun k => if k == "DOC_INT_KEY" || k == "COSMOS_DB_NAME" then none else some "x"

/-- An environment binding one required key to the empty string. -/
def envEmptyKey : String → Option String :=
  fun k => if k == "AZURE_API_KEY" then some "" else some "x"

/-- A request with no `case_id` anywhere (empty body fails to parse). -/
def reqNoCase : Request :=
  { params := fun _ => none, body := "", files := [] }

/-- A request whose body is valid JSON but not an object. -/
def reqArrayBody : Request :=
  { params := fun _ => none, body := "[1, 2]", files := [] }

/-- A request for a case with no blobs under its prefix. -/
def reqUnknownCase : Request :=
  { params := fun k => if k == "case_id" then some "nope" else none,
    body := "", files := [] }

/-- Like `sampleWorld`, but with two blobs under case `c1` (the second one's
OCR call raises). -/
def sampleWorldTwoBlobs : World :=
  { sampleWorld with blobs := [("c1/a.pdf", [1, 2]), ("c1/b.pdf", [3])] }

/-! ## Helper lemmas -/

/-- Interpolating a resolved string case id into an f-string yields the
string itself. -/
theorem caseStr_str (req : Request) (c : String) : caseStr req (.str c) = c := by
  simp [caseStr, pyStr, pyStrF]

/-- The missing-configuration response, shared by the configuration claims:
whenever some required key is falsy, the handler returns the 500 response
listing all missing keys and performs no external operation. -/
theorem envErrorResponse_eq (w : World) (req : Request)
    (h : missingVars w.env ≠ []) :
    githubrepodocs w req =
      ({ body := "Missing required environment variables: " ++
           joinSep ", " (missingVars w.env),
         mimetype := none, status := 500 }, emptyTrace) := by
  rcases hm : missingVars w.env with _ | ⟨k, ks⟩
  · exact absurd hm h
  · simp [githubrepodocs, githubrepodocsCore, hm]

/-! ## Claim theorems -/

/-- C1: whenever at least one of the ten required configuration keys is
falsy in the environment, the handler answers 500 with a body enumerating
every missing key (the comma-joined list of all of them, in which every
falsy required key occurs), and its trace is empty — no external-service
operation is performed. -/
theorem claim_C1 (w : World) (req : Request) (h : missingVars w.env ≠ []) :
    githubrepodocs w req =
      ({ body := "Missing required environment variables: " ++
           joinSep ", " (missingVars w.env),
         mimetype := none, status := 500 }, emptyTrace) ∧
    ∀ k ∈ requiredEnvKeys, envTruthy (w.env k) = false → k ∈ missingVars w.env := by
  refine ⟨envErrorResponse_eq w req h, ?_⟩
  intro k hk hfk
  simp [missingVars, List.mem_filter, hk, hfk]

/-- Witness for C1 at an environment missing two keys. -/
theorem claim_C1_witness :
    missingVars envMissingTwo ≠ [] ∧
    githubrepodocs { sampleWorld with env := envMissingTwo } sampleReq =
      ({ body := "Missing required environment variables: " ++
           joinSep ", " (missingVars envMissingTwo),
         mimetype := none, status := 500 }, emptyTrace) :=
  ⟨by decide, (claim_C1 { sampleWorld with env := envMissingTwo } sampleReq (by decide)).1⟩

/-- C2 (amended): with the configuration complete, the case identifier is
resolved by taking the `case_id` query parameter when present and non-empty;
otherwise it is read from the JSON body when the body parses to a JSON
object, a parse failure being silently treated as supplying no case id, while
a body parsing to a non-object value raises an `AttributeError` that escapes
to the top-level guard and yields the generic 500 response.  When no (truthy)
case id results, the handler returns the 400 response whose JSON body has an
`error` field, with an empty trace — no external service is touched. -/
theorem claim_C2 (w : World) (req : Request) (h : missingVars w.env = []) :
    (resolveCaseId req = .ok none →
      githubrepodocs w req =
        ({ body := json_dumps 4 (.obj [("error", .str "case_id is required")]),
           mimetype := some "application/json", status := 400 }, emptyTrace)) ∧
    (∀ msg, resolveCaseId req = .error msg →
      githubrepodocs w req =
        ({ body := json_dumps 4 (.obj [("error", .str "Internal server error"),
                                       ("message", .str msg)]),
           mimetype := some "application/json", status := 500 }, emptyTrace)) ∧
    (∀ c, req.params "case_id" = some c → c ≠ "" →
      resolveCaseId req = .ok (some (.str c))) ∧
    (req.params "case_id" = none → json_loads req.body = none →
      resolveCaseId req = .ok none) ∧
    (∀ j, req.params "case_id" = none → json_loads req.body = some j →
      (∀ ms, j ≠ .obj ms) → resolveCaseId req = .error (attrErrMsg (jsonTypeName j))) := by
  refine ⟨?_, ?_, ?_, ?_, ?_⟩
  · intro h0
    simp [githubrepodocs, githubrepodocsCore, h, h0]
  · intro msg h0
    simp [githubrepodocs, githubrepodocsCore, h, h0]
  · intro c hc hne
    simp [resolveCaseId, hc, hne]
  · intro hp hb
    simp [resolveCaseId, hp, resolveFromBody, hb]
  · intro j hp hb hno
    cases j with
    | obj ms => exact absurd rfl (hno ms)
    | null => simp [resolveCaseId, hp, resolveFromBody, hb]
    | bool b => simp [resolveCaseId, hp, resolveFromBody, hb]
    | num l => simp [resolveCaseId, hp, resolveFromBody, hb]
    | str s => simp [resolveCaseId, hp, resolveFromBody, hb]
    | arr xs => simp [resolveCaseId, hp, resolveFromBody, hb]

/-- Witness for C2 (amended): a request with no case id anywhere gets the
400 response with an empty trace. -/
theorem claim_C2_witness :
    githubrepodocs sampleWorld reqNoCase =
      ({ body := json_dumps 4 (.obj [("error", .str "case_id is required")]),
         mimetype := some "application/json", status := 400 }, emptyTrace) :=
  (claim_C2 sampleWorld reqNoCase (by decide)).1 rfl

/-- Counterexample to C2 as stated: a request with no `case_id` query
parameter whose body is valid JSON but an array (so no case id results from
it) is answered 500, not 400 — `req_body.get` raises an `AttributeError`
that the inner `except ValueError` does not catch. -/
theorem claim_C2_counterexample :
    reqArrayBody.params "case_id" = none ∧
    json_loads reqArrayBody.body = some (.arr [.num "1", .num "2"]) ∧
    (githubrepodocs sampleWorld reqArrayBody).1.status = 500 ∧
    (githubrepodocs sampleWorld reqArrayBody).1.status ≠ 400 := by
  exact ⟨rfl, rfl, rfl, by decide⟩

/-- C3: with the configuration complete, a resolved (string) case id, no
uploaded files and no blob under the prefix `{case_id}/`, the handler
answers 404 with a JSON error naming the case id, and its trace shows only
the blob list operation — no upload, download, OCR call, chat call, or
upsert is performed. -/
theorem claim_C3 (w : World) (req : Request) (cid : String)
    (h1 : missingVars w.env = [])
    (h2 : resolveCaseId req = .ok (some (.str cid)))
    (h3 : req.files = [])
    (h4 : blobListOf w req cid = []) :
    githubrepodocs w req =
      ({ body := json_dumps 4 (.obj
           [("error", .str ("No attachments found in Blob for case " ++ cid))]),
         mimetype := some "application/json", status := 404 },
       { emptyTrace with blobLists := [cid ++ "/"] }) := by
  have ha : attachmentsOf w req cid = [] := by
    simp [attachmentsOf, h4]
  simp [githubrepodocs, githubrepodocsCore, h1, h2, caseStr_str, ha, h3, h4,
    doUploads, emptyTrace]

/-- Witness for C3 at a case id matching no stored blob. -/
theorem claim_C3_witness :
    githubrepodocs sampleWorld reqUnknownCase =
      ({ body := json_dumps 4 (.obj
           [("error", .str ("No attachments found in Blob for case " ++ "nope"))]),
         mimetype := some "application/json", status := 404 },
       { emptyTrace with blobLists := ["nope" ++ "/"] }) :=
  claim_C3 sampleWorld reqUnknownCase "nope" (by decide) rfl rfl rfl

/-- C5: per-attachment OCR fault tolerance.  First, an OCR call that raises
makes `analyze_files` return the empty string.  Second, the whole handler
behaves identically (same response, same trace) on a world whose failing OCR
calls are replaced by calls that succeed with no text — so failures of any
subset of the OCR calls never abort the request and leave every other
attachment's extracted text unchanged. -/
theorem claim_C5 :
    (∀ (w : World) (b : List Nat) (e : String),
      w.ocr b = .error e → analyze_files w b = "") ∧
    (∀ (w : World) (req : Request),
      githubrepodocs w req = githubrepodocs (okEmptyOcr w) req) := by
  constructor
  · intro w b e he
    simp [analyze_files, he]
  · intro w req
    have han : ∀ b, analyze_files (okEmptyOcr w) b = analyze_files w b := by
      intro b
      simp only [analyze_files, okEmptyOcr]
      cases w.ocr b <;> simp [joinSep]
    have hocr : ∀ cid, ocrTextOf (okEmptyOcr w) req cid = ocrTextOf w req cid := by
      intro cid
      simp only [ocrTextOf, ocrResultsOf, han]
      rfl
    have hatt : ∀ cid, attachmentsOf (okEmptyOcr w) req cid = attachmentsOf w req cid :=
      fun _ => rfl
    have hbl : ∀ cid, blobListOf (okEmptyOcr w) req cid = blobListOf w req cid :=
      fun _ => rfl
    have henv : (okEmptyOcr w).env = w.env := rfl
    have hblobs : (okEmptyOcr w).blobs = w.blobs := rfl
    have hchat : (okEmptyOcr w).chat = w.chat := rfl
    have hmsg : (okEmptyOcr w).jsonErrMsg = w.jsonErrMsg := rfl
    have hseed : (okEmptyOcr w).randSeed = w.randSeed := rfl
    have hnow : (okEmptyOcr w).nowIso = w.nowIso := rfl
    simp only [githubrepodocs, githubrepodocsCore, hocr, hatt, hbl,
      entityCleanedOf, entityRawOf, summaryCleanedOf, summaryCallOf,
      henv, hblobs, hchat, hmsg, hseed, hnow]

/-- Witness for C5 at an OCR call that raises. -/
theorem claim_C5_witness :
    sampleWorld.ocr [9] = .error "boom" ∧ analyze_files sampleWorld [9] = "" :=
  ⟨rfl, claim_C5.1 sampleWorld [9] "boom" rfl⟩

/-- C7: when the fence-stripped entity-extraction output does not parse as
JSON, the handler answers 500 with a JSON body whose `raw_output` field holds
that unparsed text verbatim, only the first chat call was issued (the summary
call never happens), and nothing is upserted. -/
theorem claim_C7 (w : World) (req : Request) (cid : String)
    (h1 : missingVars w.env = [])
    (h2 : resolveCaseId req = .ok (some (.str cid)))
    (h3 : attachmentsOf w req cid ≠ [])
    (h4 : json_loads (entityCleanedOf w req cid) = none) :
    (githubrepodocs w req).1 =
      { body := json_dumps 4 (.obj
          [("error", .str "Invalid JSON returned by model"),
           ("raw_output", .str (entityCleanedOf w req cid))]),
        mimetype := some "application/json", status := 500 } ∧
    (githubrepodocs w req).2.chatCalls = [entityCall (ocrTextOf w req cid)] ∧
    (githubrepodocs w req).2.upserts = [] := by
  rcases hA : attachmentsOf w req cid with _ | ⟨a, as⟩
  · exact absurd hA h3
  · refine ⟨?_, ?_, ?_⟩ <;>
      simp [githubrepodocs, githubrepodocsCore, h1, h2, caseStr_str, hA, h4, emptyTrace]

/-- Witness for C7 at a model answering non-JSON text. -/
theorem claim_C7_witness :
    (githubrepodocs sampleWorldBadEntity sampleReq).1 =
      { body := json_dumps 4 (.obj
          [("error", .str "Invalid JSON returned by model"),
           ("raw_output", .str (entityCleanedOf sampleWorldBadEntity sampleReq "c1"))]),
        mimetype := some "application/json", status := 500 } ∧
    (githubrepodocs sampleWorldBadEntity sampleReq).2.chatCalls =
      [entityCall (ocrTextOf sampleWorldBadEntity sampleReq "c1")] ∧
    (githubrepodocs sampleWorldBadEntity sampleReq).2.upserts = [] :=
  claim_C7 sampleWorldBadEntity sampleReq "c1" (by decide) rfl (by decide) rfl

/-- C8: when the fence-stripped summary-generation output does not parse as
JSON, the parse failure is not caught locally: the handler returns the
top-level guard's generic 500 response carrying the decode exception's string
message, both chat calls appear in the trace, and nothing is upserted. -/
theorem claim_C8 (w : World) (req : Request) (cid : String) (ents : Json)
    (h1 : missingVars w.env = [])
    (h2 : resolveCaseId req = .ok (some (.str cid)))
    (h3 : attachmentsOf w req cid ≠ [])
    (h4 : json_loads (entityCleanedOf w req cid) = some ents)
    (h5 : json_loads (summaryCleanedOf w req cid ents) = none) :
    (githubrepodocs w req).1 =
      { body := json_dumps 4 (.obj
          [("error", .str "Internal server error"),
           ("message", .str (w.jsonErrMsg (summaryCleanedOf w req cid ents)))]),
        mimetype := some "application/json", status := 500 } ∧
    (githubrepodocs w req).2.chatCalls =
      [entityCall (ocrTextOf w req cid), summaryCallOf w req cid ents] ∧
    (githubrepodocs w req).2.upserts = [] := by
  rcases hA : attachmentsOf w req cid with _ | ⟨a, as⟩
  · exact absurd hA h3
  · refine ⟨?_, ?_, ?_⟩ <;>
      simp [githubrepodocs, githubrepodocsCore, h1, h2, caseStr_str, hA, h4, h5, emptyTrace]

/-- Witness for C8 at a summary model answering non-JSON text. -/
theorem claim_C8_witness :
    (githubrepodocs sampleWorldBadSummary sampleReq).1 =
      { body := json_dumps 4 (.obj
          [("error", .str "Internal server error"),
           ("message", .str (sampleWorldBadSummary.jsonErrMsg
              (summaryCleanedOf sampleWorldBadSummary sampleReq "c1" (.arr [.num "1"]))))]),
        mimetype := some "application/json", status := 500 } ∧
    (githubrepodocs sampleWorldBadSummary sampleReq).2.chatCalls =
      [entityCall (ocrTextOf sampleWorldBadSummary sampleReq "c1"),
       summaryCallOf sampleWorldBadSummary sampleReq "c1" (.arr [.num "1"])] ∧
    (githubrepodocs sampleWorldBadSummary sampleReq).2.upserts = [] :=
  claim_C8 sampleWorldBadSummary sampleReq "c1" (.arr [.num "1"])
    (by decide) rfl (by decide) rfl rfl

/-- C9: a successful run answers 200 and upserts exactly one document whose
`case_id` is the request's case id, whose `id` is the case id, a hyphen and
the two-digit random number (hence always an extension of `{case_id}-`), and
whose `ocr_text`, `extracted_entities` and `summary_result` are the
pipeline's concatenated OCR text and the two parsed model outputs. -/
theorem claim_C9 (w : World) (req : Request) (cid : String) (ents summ : Json)
    (h1 : missingVars w.env = [])
    (h2 : resolveCaseId req = .ok (some (.str cid)))
    (h3 : attachmentsOf w req cid ≠ [])
    (h4 : json_loads (entityCleanedOf w req cid) = some ents)
    (h5 : json_loads (summaryCleanedOf w req cid ents) = some summ) :
    (githubrepodocs w req).1.status = 200 ∧
    (githubrepodocs w req).2.upserts =
      [{ id := cid ++ "-" ++ toString (randint1099 w.randSeed),
         case_id := cid,
         timestamp := w.nowIso,
         ocr_text := ocrTextOf w req cid,
         extracted_entities := ents,
         summary_result := summ }] ∧
    10 ≤ randint1099 w.randSeed ∧ randint1099 w.randSeed ≤ 99 ∧
    (∃ suffix, cid ++ "-" ++ toString (randint1099 w.randSeed) =
      (cid ++ "-") ++ suffix) := by
  rcases hA : attachmentsOf w req cid with _ | ⟨a, as⟩
  · exact absurd hA h3
  · refine ⟨?_, ?_, ?_, ?_, ?_⟩
    · simp [githubrepodocs, githubrepodocsCore, h1, h2, caseStr_str, hA, h4, h5]
    · simp [githubrepodocs, githubrepodocsCore, h1, h2, caseStr_str, hA, h4, h5]
    · simp [randint1099]
    · have : w.randSeed % 90 < 90 := Nat.mod_lt _ (by omega)
      simp [randint1099]
      omega
    · exact ⟨toString (randint1099 w.randSeed), by rw [String.append_assoc]⟩

/-- Witness for C9 at a fully successful run. -/
theorem claim_C9_witness :
    (githubrepodocs sampleWorld sampleReq).1.status = 200 ∧
    (githubrepodocs sampleWorld sampleReq).2.upserts =
      [{ id := "c1" ++ "-" ++ toString (randint1099 sampleWorld.randSeed),
         case_id := "c1",
         timestamp := sampleWorld.nowIso,
         ocr_text := ocrTextOf sampleWorld sampleReq "c1",
         extracted_entities := .arr [.num "1"],
         summary_result := .bool true }] ∧
    10 ≤ randint1099 sampleWorld.randSeed ∧ randint1099 sampleWorld.randSeed ≤ 99 ∧
    (∃ suffix, "c1" ++ "-" ++ toString (randint1099 sampleWorld.randSeed) =
      ("c1" ++ "-") ++ suffix) :=
  claim_C9 sampleWorld sampleReq "c1" (.arr [.num "1"]) (.bool true)
    (by decide) rfl (by decide) rfl rfl

/-- C10: a required key bound to the empty string is treated exactly like an
absent one — it appears in the missing-variable list and the handler returns
the 500 missing-configuration response. -/
theorem claim_C10 (w : World) (req : Request) (k : String)
    (hk : k ∈ requiredEnvKeys) (he : w.env k = some "") :
    k ∈ missingVars w.env ∧
    githubrepodocs w req =
      ({ body := "Missing required environment variables: " ++
           joinSep ", " (missingVars w.env),
         mimetype := none, status := 500 }, emptyTrace) := by
  have hkm : k ∈ missingVars w.env := by
    simp [missingVars, List.mem_filter, hk, envTruthy, he]
  refine ⟨hkm, envErrorResponse_eq w req ?_⟩
  intro h0
  rw [h0] at hkm
  simp at hkm

/-- Witness for C10 at a key bound to the empty string. -/
theorem claim_C10_witness :
    "AZURE_API_KEY" ∈ missingVars envEmptyKey ∧
    githubrepodocs { sampleWorld with env := envEmptyKey } sampleReq =
      ({ body := "Missing required environment variables: " ++
           joinSep ", " (missingVars envEmptyKey),
         mimetype := none, status := 500 }, emptyTrace) :=
  claim_C10 { sampleWorld with env := envEmptyKey } sampleReq "AZURE_API_KEY"
    (by decide) rfl

/-- In the events of a pooled run, the first (and any) entry for index `i`
carries `f` of the `i`-th input, whatever the completion schedule. -/
theorem poolEvents_find (f : Attachment → String) (xs : List Attachment)
    (order : List Nat) (i : Nat) (hmem : i ∈ order) :
    (poolEvents f xs order).find? (fun e => e.1 == i) =
      some (i, f (xs.getD i { fileName := "", fileBytes := [] })) := by
  induction order with
  | nil => simp at hmem
  | cons j os ih =>
    by_cases hji : j = i
    · subst hji
      simp [poolEvents, List.find?]
    · have hmem' : i ∈ os := by
        rcases List.mem_cons.mp hmem with h | h
        · exact absurd h.symm hji
        · exact h
      simpa [poolEvents, List.find?_cons, hji] using ih hmem'

/-- C4: for every non-empty attachment list and every completion schedule a
4-worker pool can produce (any permutation of the task indices), gathering
the pooled OCR results in input order yields exactly the sequential map of
`analyze_files` over the attachments, so the pooled concatenated OCR text
equals the newline-join of the per-attachment outputs in original order —
and in particular equals the handler's `ocr_text`. -/
theorem claim_C4 (w : World) (atts : List Attachment) (schedule : List Nat)
    (hne : atts ≠ [])
    (hperm : schedule.Perm (List.range atts.length)) :
    gatherResults atts.length
        (poolEvents (fun a => analyze_files w a.fileBytes) atts schedule) =
      atts.map (fun a => analyze_files w a.fileBytes) ∧
    pooledOcrText w atts schedule =
      joinSep "\n" (atts.map (fun a => analyze_files w a.fileBytes)) ∧
    ∀ (req : Request) (cid : String), atts = attachmentsOf w req cid →
      pooledOcrText w atts schedule = ocrTextOf w req cid := by
  have hg : gatherResults atts.length
      (poolEvents (fun a => analyze_files w a.fileBytes) atts schedule) =
      atts.map (fun a => analyze_files w a.fileBytes) := by
    apply List.ext_getElem
    · simp [gatherResults]
    · intro i h1 h2
      have hi : i < atts.length := by simpa using h2
      have hmem : i ∈ schedule := hperm.mem_iff.mpr (List.mem_range.mpr hi)
      simp [gatherResults, poolEvents_find _ _ _ _ hmem,
        List.getD_eq_getElem?_getD, List.getElem?_eq_getElem hi]
  refine ⟨hg, by simp [pooledOcrText, hg], ?_⟩
  intro req cid h
  subst h
  simp [pooledOcrText, hg, ocrTextOf, ocrResultsOf]

/-- Witness for C4: two attachments completed in reversed order still gather
into the handler's `ocr_text`. -/
theorem claim_C4_witness :
    attachmentsOf sampleWorldTwoBlobs sampleReq "c1" ≠ [] ∧
    List.Perm [1, 0]
      (List.range (attachmentsOf sampleWorldTwoBlobs sampleReq "c1").length) ∧
    pooledOcrText sampleWorldTwoBlobs (attachmentsOf sampleWorldTwoBlobs sampleReq "c1")
        [1, 0] =
      ocrTextOf sampleWorldTwoBlobs sampleReq "c1" :=
  ⟨by decide, by decide,
   (claim_C4 sampleWorldTwoBlobs (attachmentsOf sampleWorldTwoBlobs sampleReq "c1")
      [1, 0] (by decide) (by decide)).2.2 sampleReq "c1" rfl⟩

/-! ## Lemmas for the code-fence stripping claim -/
theorem mem_pyWsChars (c : Char) (h : pyWs c = true) : c ∈ pyWsChars := by
  simp only [pyWs, List.contains_eq_any_beq, List.any_eq_true, beq_iff_eq] at h
  obtain ⟨x, hx, rfl⟩ := h
  exact hx

theorem mem_jWsChars (c : Char) (h : jWs c = true) : c ∈ jWsChars := by
  simp only [jWs, List.contains_eq_any_beq, List.any_eq_true, beq_iff_eq] at h
  obtain ⟨x, hx, rfl⟩ := h
  exact hx

theorem pyWs_of_jWs (c : Char) (h : jWs c = true) : pyWs c = true := by
  have := mem_jWsChars c h
  fin_cases this <;> decide

theorem not_pyWs_of_digit (c : Char) (h : c.isDigit = true) : pyWs c = false := by
  by_contra hcon
  rw [Bool.not_eq_false] at hcon
  have := mem_pyWsChars c hcon
  fin_cases this <;> simp at h

theorem not_jWs_of_digit (c : Char) (h : c.isDigit = true) : jWs c = false := by
  by_contra hcon
  rw [Bool.not_eq_false] at hcon
  have := mem_jWsChars c hcon
  fin_cases this <;> simp at h

theorem dropWhile_append_all {p : Char → Bool} (a b : List Char)
    (h : ∀ c ∈ a, p c = true) :
    List.dropWhile p (a ++ b) = List.dropWhile p b := by
  induction a with
  | nil => rfl
  | cons c a' ih =>
    simp only [List.cons_append, List.dropWhile_cons, h c (by simp)]
    exact ih (fun x hx => h x (by simp [hx]))

theorem trimEndJws_decomp (l : List Char) :
    ∃ w₂, l = trimEndJws l ++ w₂ ∧ ∀ c ∈ w₂, jWs c = true := by
  refine ⟨(l.reverse.takeWhile jWs).reverse, ?_, ?_⟩
  · conv_lhs => rw [← List.reverse_reverse l,
      ← List.takeWhile_append_dropWhile jWs l.reverse]
    rw [List.reverse_append]
    rfl
  · intro c hc
    rw [List.mem_reverse] at hc
    exact List.mem_takeWhile_imp hc

theorem pyReplaceGo_skip (o : Char) (os new : List Char) :
    ∀ (cs : List Char) (tail : List Char) (f : Nat),
      (∀ n, n < cs.length → List.isPrefixOf (o :: os) ((cs ++ tail).drop n) = false) →
      (cs ++ tail).length ≤ f →
      pyReplaceGo o os new f (cs ++ tail) =
        cs ++ pyReplaceGo o os new (f - cs.length) tail
  | [], tail, f, _, _ => by simp
  | c :: cs', tail, f, h, hf => by
    have h0 := h 0 (by simp)
    rw [List.drop_zero, List.cons_append] at h0
    cases f with
    | zero => simp at hf
    | succ f' =>
      have hrec := pyReplaceGo_skip o os new cs' tail f' (fun n hn => by
          have hd := h (n + 1) (by simp; omega)
          rwa [List.cons_append, List.drop_succ_cons] at hd)
        (by simp at hf ⊢; omega)
      simp only [List.cons_append, pyReplaceGo, List.append_eq, h0,
        Bool.false_eq_true, if_false]
      rw [hrec]
      simp [List.length_cons, Nat.succ_sub_succ]

theorem noStartMatch (q : List Char) (s tail : List Char)
    (hs : hasInfix ['`', '`', '`'] s = false) :
    ∀ n, n < s.length →
      List.isPrefixOf ('`' :: '`' :: '`' :: q) ((s ++ '\n' :: tail).drop n) = false := by
  intro n hn
  by_contra hcon
  rw [Bool.not_eq_false] at hcon
  rw [List.drop_append_of_le_length (Nat.le_of_lt hn)] at hcon
  rcases hd : s.drop n with _ | ⟨a, _ | ⟨b, _ | ⟨c₂, d₃⟩⟩⟩ <;> rw [hd] at hcon
  · have hlen : (s.drop n).length = s.length - n := List.length_drop n s
    rw [hd] at hlen
    simp at hlen
    omega
  · simp [List.isPrefixOf] at hcon
  · simp [List.isPrefixOf] at hcon
  · simp only [List.cons_append, List.isPrefixOf, Bool.and_eq_true, beq_iff_eq] at hcon
    obtain ⟨ha, hb, hc₂, _⟩ := hcon
    have hpre : List.isPrefixOf ['`', '`', '`'] (s.drop n) = true := by
      rw [hd]
      simp [List.isPrefixOf, ← ha, ← hb, ← hc₂]
    have htrue : hasInfix ['`', '`', '`'] s = true := by
      simp only [hasInfix, List.any_eq_true]
      exact ⟨n, List.mem_range.mpr (by omega), hpre⟩
    rw [hs] at htrue
    exact absurd htrue (by simp)

theorem pyReplaceGo_nil (o : Char) (os new : List Char) (f : Nat) :
    pyReplaceGo o os new f [] = [] := by
  cases f <;> rfl

theorem pyReplaceGo_fuel (o : Char) (os new : List Char) :
    ∀ (k : Nat) (cs : List Char) (f₁ f₂ : Nat),
      cs.length ≤ k → cs.length ≤ f₁ → cs.length ≤ f₂ →
      pyReplaceGo o os new f₁ cs = pyReplaceGo o os new f₂ cs := by
  intro k
  induction k with
  | zero =>
    intro cs f₁ f₂ hk _ _
    have hcs : cs = [] := List.length_eq_zero.mp (Nat.le_zero.mp hk)
    subst hcs
    rw [pyReplaceGo_nil, pyReplaceGo_nil]
  | succ k ih =>
    intro cs f₁ f₂ hk h₁ h₂
    cases cs with
    | nil => rw [pyReplaceGo_nil, pyReplaceGo_nil]
    | cons c rest =>
      cases f₁ with
      | zero => simp at h₁
      | succ f₁' =>
        cases f₂ with
        | zero => simp at h₂
        | succ f₂' =>
          simp only [List.length_cons] at hk h₁ h₂
          simp only [pyReplaceGo]
          by_cases hm : List.isPrefixOf (o :: os) (c :: rest) = true
          · simp only [hm, if_true]
            congr 1
            exact ih (rest.drop os.length) f₁' f₂'
              (by simp [List.length_drop]; omega)
              (by simp [List.length_drop]; omega)
              (by simp [List.length_drop]; omega)
          · rw [Bool.not_eq_true] at hm
            simp only [hm, Bool.false_eq_true, if_false]
            congr 1
            exact ih rest f₁' f₂' (by omega) (by omega) (by omega)

theorem pyReplaceGo_no_match (o : Char) (os new : List Char) (cs : List Char)
    (h : ∀ n, n < cs.length → List.isPrefixOf (o :: os) (cs.drop n) = false)
    (f : Nat) (hf : cs.length ≤ f) :
    pyReplaceGo o os new f cs = cs := by
  have h2 := pyReplaceGo_skip o os new cs [] f
    (fun n hn => by rw [List.append_nil]; exact h n hn)
    (by rwa [List.append_nil])
  rw [List.append_nil] at h2
  rw [h2, pyReplaceGo_nil, List.append_nil]

theorem go2_cl (f : Nat) (hf : 4 ≤ f) :
    pyReplaceGo '`' ['`', '`'] [] f ['\n', '`', '`', '`'] = ['\n'] := by
  rw [pyReplaceGo_fuel '`' ['`', '`'] [] 4 ['\n', '`', '`', '`'] f 4
    (by decide) (by simpa using hf) (by decide)]
  decide

theorem go1_cl (f : Nat) (hf : 4 ≤ f) :
    pyReplaceGo '`' ['`', '`', 'j', 's', 'o', 'n'] [] f ['\n', '`', '`', '`'] =
      ['\n', '`', '`', '`'] := by
  rw [pyReplaceGo_fuel '`' ['`', '`', 'j', 's', 'o', 'n'] [] 4 ['\n', '`', '`', '`'] f 4
    (by decide) (by simpa using hf) (by decide)]
  decide

theorem go2_wrap (s : String) (hs : hasInfix ['`', '`', '`'] s.data = false)
    (f : Nat) (hf : ('\n' :: (s.data ++ ['\n', '`', '`', '`'])).length ≤ f) :
    pyReplaceGo '`' ['`', '`'] [] f ('\n' :: (s.data ++ ['\n', '`', '`', '`'])) =
      '\n' :: (s.data ++ ['\n']) := by
  have hsl : s.data.length = s.length := rfl
  simp only [List.length_cons, List.length_append] at hf
  cases f with
  | zero => omega
  | succ f' =>
    simp only [pyReplaceGo]
    rw [if_neg (by simp +decide [List.isPrefixOf])]
    congr 1
    have hskip := pyReplaceGo_skip '`' ['`', '`'] [] s.data ['\n', '`', '`', '`'] f'
      (noStartMatch [] s.data ['`', '`', '`'] hs)
      (by simp [List.length_append]; omega)
    rw [hskip, go2_cl (f' - s.data.length) (by omega)]

theorem go1_tail (s : String) (hs : hasInfix ['`', '`', '`'] s.data = false)
    (f : Nat) (hf : ('\n' :: (s.data ++ ['\n', '`', '`', '`'])).length ≤ f) :
    pyReplaceGo '`' ['`', '`', 'j', 's', 'o', 'n'] [] f
        ('\n' :: (s.data ++ ['\n', '`', '`', '`'])) =
      '\n' :: (s.data ++ ['\n', '`', '`', '`']) := by
  have hsl : s.data.length = s.length := rfl
  simp only [List.length_cons, List.length_append] at hf
  cases f with
  | zero => omega
  | succ f' =>
    simp only [pyReplaceGo]
    rw [if_neg (by simp +decide [List.isPrefixOf])]
    congr 1
    have hskip := pyReplaceGo_skip '`' ['`', '`', 'j', 's', 'o', 'n'] [] s.data
      ['\n', '`', '`', '`'] f'
      (noStartMatch ['j', 's', 'o', 'n'] s.data ['`', '`', '`'] hs)
      (by simp [List.length_append]; omega)
    rw [hskip, go1_cl (f' - s.data.length) (by omega)]

theorem go1_fence_true (s : String) (hs : hasInfix ['`', '`', '`'] s.data = false)
    (f : Nat)
    (hf : (['`', '`', '`', 'j', 's', 'o', 'n', '\n'] ++
      (s.data ++ ['\n', '`', '`', '`'])).length ≤ f) :
    pyReplaceGo '`' ['`', '`', 'j', 's', 'o', 'n'] [] f
        (['`', '`', '`', 'j', 's', 'o', 'n', '\n'] ++ (s.data ++ ['\n', '`', '`', '`'])) =
      '\n' :: (s.data ++ ['\n', '`', '`', '`']) := by
  have hsl : s.data.length = s.length := rfl
  simp only [List.length_append, List.length_cons, List.length_nil] at hf
  cases f with
  | zero => omega
  | succ f' =>
    simp only [List.cons_append, pyReplaceGo]
    rw [if_pos (by simp +decide [List.isPrefixOf])]
    simp only [List.nil_append, List.length_cons, List.length_nil, List.drop_succ_cons,
      List.drop_zero]
    exact go1_tail s hs f' (by simp [List.length_append]; omega)

theorem go1_fence_false (s : String) (hs : hasInfix ['`', '`', '`'] s.data = false)
    (f : Nat)
    (hf : (['`', '`', '`', '\n'] ++ (s.data ++ ['\n', '`', '`', '`'])).length ≤ f) :
    pyReplaceGo '`' ['`', '`', 'j', 's', 'o', 'n'] [] f
        (['`', '`', '`', '\n'] ++ (s.data ++ ['\n', '`', '`', '`'])) =
      ['`', '`', '`', '\n'] ++ (s.data ++ ['\n', '`', '`', '`']) := by
  have hsl : s.data.length = s.length := rfl
  simp only [List.length_append, List.length_cons, List.length_nil] at hf
  cases f with
  | zero => omega
  | succ f₁ =>
  cases f₁ with
  | zero => omega
  | succ f₂ =>
  cases f₂ with
  | zero => omega
  | succ f₃ =>
  simp only [List.cons_append, pyReplaceGo]
  rw [if_neg (by simp +decide [List.isPrefixOf]), if_neg (by simp +decide [List.isPrefixOf]),
    if_neg (by simp +decide [List.isPrefixOf])]
  simp only [List.cons.injEq, true_and]
  exact go1_tail s hs f₃ (by simp [List.length_append]; omega)

theorem go2_fence_false (s : String) (hs : hasInfix ['`', '`', '`'] s.data = false)
    (f : Nat)
    (hf : (['`', '`', '`', '\n'] ++ (s.data ++ ['\n', '`', '`', '`'])).length ≤ f) :
    pyReplaceGo '`' ['`', '`'] [] f
        (['`', '`', '`', '\n'] ++ (s.data ++ ['\n', '`', '`', '`'])) =
      '\n' :: (s.data ++ ['\n']) := by
  have hsl : s.data.length = s.length := rfl
  simp only [List.length_append, List.length_cons, List.length_nil] at hf
  cases f with
  | zero => omega
  | succ f' =>
    simp only [List.cons_append, pyReplaceGo]
    rw [if_pos (by simp +decide [List.isPrefixOf])]
    simp only [List.nil_append, List.length_cons, List.length_nil, List.drop_succ_cons,
      List.drop_zero]
    exact go2_wrap s hs f' (by simp [List.length_append]; omega)

theorem pyStripL_id_backtick (x : List Char) :
    pyStripL ('`' :: (x ++ ['\n', '`', '`', '`'])) = '`' :: (x ++ ['\n', '`', '`', '`']) := by
  have h2 : List.dropWhile pyWs (('`' :: (x ++ ['\n', '`', '`', '`'])).reverse) =
      ('`' :: (x ++ ['\n', '`', '`', '`'])).reverse := by
    rw [List.reverse_cons, List.reverse_append,
      show (['\n', '`', '`', '`'] : List Char).reverse = ['`', '`', '`', '\n'] from rfl]
    simp only [List.cons_append]
    rw [List.dropWhile_cons, if_neg (by decide)]
  unfold pyStripL
  rw [List.dropWhile_cons, if_neg (by decide), h2, List.reverse_reverse]

theorem pyStripL_wrap (l : List Char) :
    pyStripL ('\n' :: (l ++ ['\n'])) = pyStripL l := by
  unfold pyStripL
  rw [List.dropWhile_cons, if_pos (by decide), List.dropWhile_append]
  by_cases hd : (List.dropWhile pyWs l).isEmpty = true
  · rw [if_pos hd, show List.dropWhile pyWs ['\n'] = [] from rfl]
    rw [List.isEmpty_iff] at hd
    rw [hd]
  · rw [if_neg hd, List.reverse_append,
      show (['\n'] : List Char).reverse = ['\n'] from rfl, List.singleton_append,
      List.dropWhile_cons, if_pos (by decide)]

theorem stripCodeFence_fenceWrap (tag : Bool) (s : String)
    (hs : hasInfix ['`', '`', '`'] s.data = false) :
    stripCodeFence (fenceWrap tag s) = ⟨pyStripL s.data⟩ := by
  cases tag with
  | true =>
    have hid : pyStripS (fenceWrap true s) = fenceWrap true s :=
      congrArg String.mk (pyStripL_id_backtick (['`', '`', 'j', 's', 'o', 'n', '\n'] ++ s.data))
    have hr1 : pyReplace "```json" "" (fenceWrap true s) =
        ⟨'\n' :: (s.data ++ ['\n', '`', '`', '`'])⟩ :=
      congrArg String.mk (go1_fence_true s hs _ le_rfl)
    have hr2 : pyReplace "```" "" (⟨'\n' :: (s.data ++ ['\n', '`', '`', '`'])⟩ : String) =
        ⟨'\n' :: (s.data ++ ['\n'])⟩ :=
      congrArg String.mk (go2_wrap s hs _ le_rfl)
    rw [stripCodeFence, hid, if_pos (by exact of_decide_eq_true rfl), hr1, hr2]
    exact congrArg String.mk (pyStripL_wrap s.data)
  | false =>
    have hid : pyStripS (fenceWrap false s) = fenceWrap false s :=
      congrArg String.mk (pyStripL_id_backtick (['`', '`', '\n'] ++ s.data))
    have hr1 : pyReplace "```json" "" (fenceWrap false s) = fenceWrap false s :=
      congrArg String.mk (go1_fence_false s hs _ le_rfl)
    have hr2 : pyReplace "```" "" (fenceWrap false s) = ⟨'\n' :: (s.data ++ ['\n'])⟩ :=
      congrArg String.mk (go2_fence_false s hs _ le_rfl)
    rw [stripCodeFence, hid, if_pos (by exact of_decide_eq_true rfl), hr1, hr2]
    exact congrArg String.mk (pyStripL_wrap s.data)

theorem parseCore_nil : ∀ (f : Nat) (m : PMode), parseCore f m [] = none := by
  intro f
  induction f with
  | zero => intro m; rfl
  | succ f ih =>
    intro m
    cases m with
    | val => rfl
    | elems =>
      show (match parseCore f .val (List.dropWhile jWs []) with
        | some (v, r) => _ | none => none) = none
      rw [show List.dropWhile jWs [] = [] from rfl, ih PMode.val]
    | members => rfl

theorem parseCore_val_starts (f : Nat) (c : Char) (t : List Char) (x : Json × List Char)
    (h : parseCore f .val (c :: t) = some x) : startsChar c = true := by
  cases f with
  | zero => simp [parseCore] at h
  | succ f =>
    by_contra hs
    rw [Bool.not_eq_true] at hs
    simp only [startsChar, Bool.or_eq_false_iff, beq_eq_false_iff_ne, ne_eq] at hs
    obtain ⟨⟨⟨⟨⟨⟨⟨⟨⟨h1, h2⟩, h3⟩, h4⟩, h5⟩, h6⟩, h7⟩, h8⟩, h9⟩, h10⟩ := hs
    simp only [parseCore, if_neg h1, if_neg h2, if_neg h3, if_neg h4, if_neg h5,
      if_neg h6, if_neg h7, if_neg h8, if_neg h9, h10, Bool.false_eq_true,
      if_false] at h
    exact absurd h (by simp)

theorem ends_digit_of_takeWhile (l : List Char) (h : l.takeWhile Char.isDigit ≠ []) :
    ∃ p d, l.takeWhile Char.isDigit = p ++ [d] ∧ d.isDigit = true :=
  ⟨(l.takeWhile Char.isDigit).dropLast, (l.takeWhile Char.isDigit).getLast h,
    (List.dropLast_append_getLast h).symm,
    List.mem_takeWhile_imp (List.getLast_mem h)⟩

theorem fracPart_spec (acc rest : List Char)
    (hacc : ∃ p d, acc = p ++ [d] ∧ d.isDigit = true) :
    (fracPart acc rest).1 ++ (fracPart acc rest).2 = acc ++ rest ∧
    ∃ p d, (fracPart acc rest).1 = p ++ [d] ∧ d.isDigit = true := by
  unfold fracPart
  split
  · rename_i r
    by_cases hds : (r.takeWhile Char.isDigit).isEmpty = true
    · rw [if_pos hds]
      exact ⟨rfl, hacc⟩
    · rw [if_neg hds]
      refine ⟨?_, ?_⟩
      · simp only [List.append_assoc, List.cons_append, List.nil_append]
        rw [List.takeWhile_append_dropWhile]
      · have hne : r.takeWhile Char.isDigit ≠ [] := by
          intro h0
          rw [h0] at hds
          simp at hds
        obtain ⟨p, d, hpd, hd⟩ := ends_digit_of_takeWhile r hne
        exact ⟨acc ++ '.' :: p, d, by rw [hpd]; simp [List.append_assoc], hd⟩
  · exact ⟨rfl, hacc⟩

theorem signSplit_append (r : List Char) : (signSplit r).1 ++ (signSplit r).2 = r := by
  unfold signSplit
  split <;> rfl

theorem expPart_spec (acc rest : List Char)
    (hacc : ∃ p d, acc = p ++ [d] ∧ d.isDigit = true) :
    (expPart acc rest).1 ++ (expPart acc rest).2 = acc ++ rest ∧
    ∃ p d, (expPart acc rest).1 = p ++ [d] ∧ d.isDigit = true := by
  unfold expPart
  split
  · rename_i e r
    by_cases he : e = 'e' ∨ e = 'E'
    · rw [if_pos he]
      by_cases hds : ((signSplit r).2.takeWhile Char.isDigit).isEmpty = true
      · rw [if_pos hds]
        exact ⟨rfl, hacc⟩
      · rw [if_neg hds]
        refine ⟨?_, ?_⟩
        · simp only [List.append_assoc, List.cons_append, List.nil_append]
          rw [List.takeWhile_append_dropWhile, signSplit_append]
        · have hne : (signSplit r).2.takeWhile Char.isDigit ≠ [] := by
            intro h0
            rw [h0] at hds
            simp at hds
          obtain ⟨p, d, hpd, hd⟩ := ends_digit_of_takeWhile (signSplit r).2 hne
          exact ⟨acc ++ e :: ((signSplit r).1 ++ p), d,
            by rw [hpd]; simp [List.append_assoc], hd⟩
    · rw [if_neg he]
      exact ⟨rfl, hacc⟩
  · exact ⟨rfl, hacc⟩

theorem afterIntPart_spec (acc rest : List Char)
    (hacc : ∃ p d, acc = p ++ [d] ∧ d.isDigit = true) :
    (afterIntPart acc rest).1 ++ (afterIntPart acc rest).2 = acc ++ rest ∧
    ∃ p d, (afterIntPart acc rest).1 = p ++ [d] ∧ d.isDigit = true := by
  obtain ⟨h1, h2⟩ := fracPart_spec acc rest hacc
  obtain ⟨h3, h4⟩ := expPart_spec (fracPart acc rest).1 (fracPart acc rest).2 h2
  exact ⟨by rw [afterIntPart, h3, h1], h4⟩

theorem numSign_append (cs : List Char) : (numSign cs).1 ++ (numSign cs).2 = cs := by
  unfold numSign
  split <;> rfl

theorem parseNumber_shape (cs lex rest : List Char)
    (h : parseNumber cs = some (lex, rest)) :
    cs = lex ++ rest ∧ ∃ p d, lex = p ++ [d] ∧ d.isDigit = true := by
  unfold parseNumber at h
  split at h
  · exact absurd h (by simp)
  · rename_i t heq
    rw [Option.some.injEq] at h
    have hl := congrArg Prod.fst h
    have hr := congrArg Prod.snd h
    simp only at hl hr
    obtain ⟨h1, h2⟩ := afterIntPart_spec ((numSign cs).1 ++ ['0']) t
      ⟨(numSign cs).1, '0', rfl, by decide⟩
    rw [hl, hr] at h1
    rw [hl] at h2
    refine ⟨?_, h2⟩
    rw [h1, List.append_assoc, List.singleton_append, ← heq, numSign_append]
  · rename_i c t2 heq
    split at h
    · rename_i hdig
      rw [Option.some.injEq] at h
      have hl := congrArg Prod.fst h
      have hr := congrArg Prod.snd h
      simp only at hl hr
      have hne : (numSign cs).2.takeWhile Char.isDigit ≠ [] := by
        rw [heq, List.takeWhile_cons, if_pos hdig]
        simp
      obtain ⟨p2, d2, hpd, hd⟩ := ends_digit_of_takeWhile (numSign cs).2 hne
      obtain ⟨h1, h2⟩ := afterIntPart_spec
        ((numSign cs).1 ++ (numSign cs).2.takeWhile Char.isDigit)
        ((numSign cs).2.dropWhile Char.isDigit)
        ⟨(numSign cs).1 ++ p2, d2, by rw [hpd, List.append_assoc], hd⟩
      rw [hl, hr] at h1
      rw [hl] at h2
      refine ⟨?_, h2⟩
      rw [h1, List.append_assoc, List.takeWhile_append_dropWhile, numSign_append]
    · exact absurd h (by simp)

theorem parseStrB_shape : ∀ (f : Nat) (cs content rest : List Char),
    parseStrB f cs = some (content, rest) → ∃ pre, cs = pre ++ '"' :: rest := by
  intro f
  induction f with
  | zero => intro cs content rest h; simp [parseStrB] at h
  | succ f ih =>
    intro cs content rest h
    cases cs with
    | nil => simp [parseStrB] at h
    | cons c t =>
      have hmap : ∀ (X : Char) (t' : List Char),
          (parseStrB f t').map (fun p => (X :: p.1, p.2)) = some (content, rest) →
          ∃ pre, t' = pre ++ '"' :: rest := by
        intro X t' hm
        rw [Option.map_eq_some'] at hm
        obtain ⟨⟨c', r'⟩, hps, hpe⟩ := hm
        rw [Prod.mk.injEq] at hpe
        obtain ⟨_, hr'⟩ := hpe
        have hr₂ : r' = rest := hr'
        obtain ⟨pre, hpre⟩ := ih t' c' r' hps
        exact ⟨pre, by rw [hpre, hr₂]⟩
      simp only [parseStrB] at h
      split at h
      · rename_i hq
        rw [Option.some.injEq, Prod.mk.injEq] at h
        obtain ⟨_, ht⟩ := h
        exact ⟨[], by rw [hq, ht]; rfl⟩
      · split at h
        · split at h
          · exact absurd h (by simp)
          · rename_i e t₂
            split at h
            · rename_i ec hec
              obtain ⟨pre, hpre⟩ := hmap ec t₂ h
              exact ⟨c :: e :: pre, by rw [hpre]; simp⟩
            · split at h
              · rename_i he
                split at h
                · rename_i h₁ h₂ h₃ h₄ t₃
                  split at h
                  · rename_i a b c₃ d ha hb hc hd
                    split at h
                    · split at h
                      · rename_i g₁ g₂ g₃ g₄ t₄
                        split at h
                        · rename_i a' b' c' d' ha' hb' hc' hd'
                          split at h
                          · obtain ⟨pre, hpre⟩ := hmap _ t₄ h
                            exact ⟨c :: e :: h₁ :: h₂ :: h₃ :: h₄ :: '\\' :: 'u' ::
                              g₁ :: g₂ :: g₃ :: g₄ :: pre, by rw [hpre]; simp⟩
                          · exact absurd h (by simp)
                        · exact absurd h (by simp)
                      · exact absurd h (by simp)
                    · split at h
                      · exact absurd h (by simp)
                      · obtain ⟨pre, hpre⟩ := hmap _ t₃ h
                        exact ⟨c :: e :: h₁ :: h₂ :: h₃ :: h₄ :: pre, by rw [hpre]; simp⟩
                  · exact absurd h (by simp)
                · exact absurd h (by simp)
              · exact absurd h (by simp)
        · split at h
          · exact absurd h (by simp)
          · obtain ⟨pre, hpre⟩ := hmap c t h
            exact ⟨c :: pre, by rw [hpre]; simp⟩

theorem parseCore_shape : ∀ (f : Nat) (m : PMode) (cs : List Char) (v : Json)
    (rest : List Char), parseCore f m cs = some (v, rest) →
    ∃ pre c, cs = pre ++ c :: rest ∧ pyWs c = false ∧ jWs c = false := by
  intro f
  induction f with
  | zero => intro m cs v rest h; simp [parseCore] at h
  | succ f ih =>
    intro m cs v rest h
    cases m with
    | val =>
      cases cs with
      | nil => simp [parseCore] at h
      | cons c t =>
        simp only [parseCore] at h
        split at h
        · rename_i hq
          rw [Option.map_eq_some'] at h
          obtain ⟨⟨sc, sr⟩, hps, hpe⟩ := h
          rw [Prod.mk.injEq] at hpe
          obtain ⟨_, hr⟩ := hpe
          have hr₂ : sr = rest := hr
          obtain ⟨pre, hpre⟩ := parseStrB_shape _ t sc sr hps
          subst hq
          refine ⟨'"' :: pre, '"', ?_, by decide, by decide⟩
          rw [hpre, hr₂]
          simp
        · split at h
          · rename_i hq hb
            subst hb
            split at h
            · rename_i r heq
              rw [Option.some.injEq, Prod.mk.injEq] at h
              obtain ⟨_, hr⟩ := h
              refine ⟨'\x7b' :: t.takeWhile jWs, '\x7d', ?_, by decide, by decide⟩
              conv_lhs => rw [← List.takeWhile_append_dropWhile jWs t, heq]
              rw [hr]
              simp
            · obtain ⟨pre, c', hpre, hc1, hc2⟩ := ih .members _ v rest h
              refine ⟨'\x7b' :: (t.takeWhile jWs ++ pre), c', ?_, hc1, hc2⟩
              conv_lhs => rw [← List.takeWhile_append_dropWhile jWs t, hpre]
              simp
          · split at h
            · rename_i hq hb ha
              subst ha
              split at h
              · rename_i r heq
                rw [Option.some.injEq, Prod.mk.injEq] at h
                obtain ⟨_, hr⟩ := h
                refine ⟨'[' :: t.takeWhile jWs, ']', ?_, by decide, by decide⟩
                conv_lhs => rw [← List.takeWhile_append_dropWhile jWs t, heq]
                rw [hr]
                simp
              · obtain ⟨pre, c', hpre, hc1, hc2⟩ := ih .elems _ v rest h
                refine ⟨'[' :: (t.takeWhile jWs ++ pre), c', ?_, hc1, hc2⟩
                conv_lhs => rw [← List.takeWhile_append_dropWhile jWs t, hpre]
                simp
            · split at h
              · rename_i ht
                subst ht
                split at h
                · rename_i r
                  rw [Option.some.injEq, Prod.mk.injEq] at h
                  obtain ⟨_, hr⟩ := h
                  refine ⟨['t', 'r', 'u'], 'e', ?_, by decide, by decide⟩
                  rw [← hr]
                  simp
                · exact absurd h (by simp)
              · split at h
                · rename_i hf
                  subst hf
                  split at h
                  · rename_i r
                    rw [Option.some.injEq, Prod.mk.injEq] at h
                    obtain ⟨_, hr⟩ := h
                    refine ⟨['f', 'a', 'l', 's'], 'e', ?_, by decide, by decide⟩
                    rw [← hr]
                    simp
                  · exact absurd h (by simp)
                · split at h
                  · rename_i hn
                    subst hn
                    split at h
                    · rename_i r
                      rw [Option.some.injEq, Prod.mk.injEq] at h
                      obtain ⟨_, hr⟩ := h
                      refine ⟨['n', 'u', 'l'], 'l', ?_, by decide, by decide⟩
                      rw [← hr]
                      simp
                    · exact absurd h (by simp)
                  · split at h
                    · rename_i hN
                      subst hN
                      split at h
                      · rename_i r
                        rw [Option.some.injEq, Prod.mk.injEq] at h
                        obtain ⟨_, hr⟩ := h
                        refine ⟨['N', 'a'], 'N', ?_, by decide, by decide⟩
                        rw [← hr]
                        simp
                      · exact absurd h (by simp)
                    · split at h
                      · rename_i hI
                        subst hI
                        split at h
                        · rename_i r
                          rw [Option.some.injEq, Prod.mk.injEq] at h
                          obtain ⟨_, hr⟩ := h
                          refine ⟨['I', 'n', 'f', 'i', 'n', 'i', 't'], 'y', ?_,
                            by decide, by decide⟩
                          rw [← hr]
                          simp
                        · exact absurd h (by simp)
                      · split at h
                        · rename_i hm
                          subst hm
                          split at h
                          · rename_i r
                            rw [Option.some.injEq, Prod.mk.injEq] at h
                            obtain ⟨_, hr⟩ := h
                            refine ⟨['-', 'I', 'n', 'f', 'i', 'n', 'i', 't'], 'y', ?_,
                              by decide, by decide⟩
                            rw [← hr]
                            simp
                          · rw [Option.map_eq_some'] at h
                            obtain ⟨⟨lex, nr⟩, hpn, hpe⟩ := h
                            rw [Prod.mk.injEq] at hpe
                            obtain ⟨_, hr⟩ := hpe
                            have hr₂ : nr = rest := hr
                            obtain ⟨hsplit, p, d, hpd, hdig⟩ :=
                              parseNumber_shape _ lex nr hpn
                            refine ⟨p, d, ?_, not_pyWs_of_digit d hdig,
                              not_jWs_of_digit d hdig⟩
                            rw [← hr₂, hsplit, hpd]
                            simp
                        · split at h
                          · rw [Option.map_eq_some'] at h
                            obtain ⟨⟨lex, nr⟩, hpn, hpe⟩ := h
                            rw [Prod.mk.injEq] at hpe
                            obtain ⟨_, hr⟩ := hpe
                            have hr₂ : nr = rest := hr
                            obtain ⟨hsplit, p, d, hpd, hdig⟩ :=
                              parseNumber_shape _ lex nr hpn
                            refine ⟨p, d, ?_, not_pyWs_of_digit d hdig,
                              not_jWs_of_digit d hdig⟩
                            rw [← hr₂, hsplit, hpd]
                            simp
                          · exact absurd h (by simp)
    | elems =>
      simp only [parseCore] at h
      split at h
      · rename_i v₁ r heq1
        obtain ⟨p₁, c₁, hp₁, hc₁a, hc₁b⟩ := ih .val (cs.dropWhile jWs) v₁ r heq1
        split at h
        · rename_i r₂ heq2
          split at h
          · rename_i vs r₃ heq3
            obtain ⟨p₂, c₂, hp₂, hc₂a, hc₂b⟩ := ih .elems r₂ (.arr vs) r₃ heq3
            rw [Option.some.injEq, Prod.mk.injEq] at h
            obtain ⟨_, hr⟩ := h
            refine ⟨cs.takeWhile jWs ++ p₁ ++ c₁ :: (r.takeWhile jWs ++ ',' :: p₂),
              c₂, ?_, hc₂a, hc₂b⟩
            conv_lhs => rw [← List.takeWhile_append_dropWhile jWs cs, hp₁]
            conv_lhs => rw [show r = r.takeWhile jWs ++ ',' :: r₂ by
              rw [← heq2, List.takeWhile_append_dropWhile]]
            rw [hp₂, ← hr]
            simp
          · exact absurd h (by simp)
        · rename_i r₂ heq2
          rw [Option.some.injEq, Prod.mk.injEq] at h
          obtain ⟨_, hr⟩ := h
          refine ⟨cs.takeWhile jWs ++ p₁ ++ c₁ :: r.takeWhile jWs, ']', ?_,
            by decide, by decide⟩
          conv_lhs => rw [← List.takeWhile_append_dropWhile jWs cs, hp₁]
          conv_lhs => rw [show r = r.takeWhile jWs ++ ']' :: r₂ by
            rw [← heq2, List.takeWhile_append_dropWhile]]
          rw [← hr]
          simp
        · exact absurd h (by simp)
      · exact absurd h (by simp)
    | members =>
      cases cs with
      | nil => simp [parseCore] at h
      | cons c t =>
        simp only [parseCore] at h
        split at h
        · rename_i t' hpat
          rw [List.cons.injEq] at hpat
          obtain ⟨hc, ht⟩ := hpat
          subst hc
          subst ht
          split at h
          · rename_i k r hstr
            obtain ⟨pk, hpk⟩ := parseStrB_shape _ _ k r hstr
            split at h
            · rename_i r₂ heq2
              split at h
              · rename_i v₁ r₃ heq3
                obtain ⟨pv, cv, hpv, hcva, hcvb⟩ :=
                  ih .val (r₂.dropWhile jWs) v₁ r₃ heq3
                split at h
                · rename_i r₄ heq4
                  split at h
                  · rename_i ms r₅ heq5
                    obtain ⟨pm, cm, hpm, hcma, hcmb⟩ :=
                      ih .members (r₄.dropWhile jWs) (.obj ms) r₅ heq5
                    rw [Option.some.injEq, Prod.mk.injEq] at h
                    obtain ⟨_, hr⟩ := h
                    refine ⟨'"' :: (pk ++ '"' :: (r.takeWhile jWs ++ ':' ::
                      (r₂.takeWhile jWs ++ pv ++ cv :: (r₃.takeWhile jWs ++ ',' ::
                      (r₄.takeWhile jWs ++ pm))))), cm, ?_, hcma, hcmb⟩
                    conv_lhs => rw [hpk]
                    conv_lhs => rw [show r = r.takeWhile jWs ++ ':' :: r₂ by
                      rw [← heq2, List.takeWhile_append_dropWhile]]
                    conv_lhs => rw [show r₂ = r₂.takeWhile jWs ++ (pv ++ cv :: r₃) by
                      rw [← hpv, List.takeWhile_append_dropWhile]]
                    conv_lhs => rw [show r₃ = r₃.takeWhile jWs ++ ',' :: r₄ by
                      rw [← heq4, List.takeWhile_append_dropWhile]]
                    conv_lhs => rw [show r₄ = r₄.takeWhile jWs ++ (pm ++ cm :: r₅) by
                      rw [← hpm, List.takeWhile_append_dropWhile]]
                    rw [← hr]
                    simp
                  · exact absurd h (by simp)
                · rename_i r₄ heq4
                  rw [Option.some.injEq, Prod.mk.injEq] at h
                  obtain ⟨_, hr⟩ := h
                  refine ⟨'"' :: (pk ++ '"' :: (r.takeWhile jWs ++ ':' ::
                    (r₂.takeWhile jWs ++ pv ++ cv :: r₃.takeWhile jWs))), '\x7d', ?_,
                    by decide, by decide⟩
                  conv_lhs => rw [hpk]
                  conv_lhs => rw [show r = r.takeWhile jWs ++ ':' :: r₂ by
                    rw [← heq2, List.takeWhile_append_dropWhile]]
                  conv_lhs => rw [show r₂ = r₂.takeWhile jWs ++ (pv ++ cv :: r₃) by
                    rw [← hpv, List.takeWhile_append_dropWhile]]
                  conv_lhs => rw [show r₃ = r₃.takeWhile jWs ++ '\x7d' :: r₄ by
                    rw [← heq4, List.takeWhile_append_dropWhile]]
                  rw [← hr]
                  simp
                · exact absurd h (by simp)
              · exact absurd h (by simp)
            · exact absurd h (by simp)
          · exact absurd h (by simp)
        · exact absurd h (by simp)

theorem starts_not_ws (c : Char) (h : startsChar c = true) :
    pyWs c = false ∧ jWs c = false := by
  simp only [startsChar, Bool.or_eq_true, beq_iff_eq] at h
  rcases h with ((((((((h | h) | h) | h) | h) | h) | h) | h) | h) | h
  case inr => exact ⟨not_pyWs_of_digit c h, not_jWs_of_digit c h⟩
  all_goals subst h
  all_goals exact ⟨by decide, by decide⟩

theorem json_loads_pyStrip (s : String) (v : Json) (h : json_loads s = some v) :
    json_loads ⟨pyStripL s.data⟩ = some v := by
  unfold json_loads at h
  set ct := trimEndJws (s.data.dropWhile jWs) with hct
  split at h
  case h_2 => exact absurd h (by simp)
  case h_1 v' heq =>
  rw [Option.some.injEq] at h
  subst h
  obtain ⟨pre, cE, hshape, hpwE, hjwE⟩ := parseCore_shape _ .val ct v' [] heq
  rcases hcc : ct with _ | ⟨c₀, ct'⟩
  · rw [hcc, parseCore_nil] at heq
    exact absurd heq (by simp)
  · have heq' := heq
    rw [hcc] at heq'
    have hstart := parseCore_val_starts _ c₀ ct' _ heq'
    obtain ⟨hpw0, hjw0⟩ := starts_not_ws c₀ hstart
    obtain ⟨w₂, hdec, hw₂⟩ := trimEndJws_decomp (s.data.dropWhile jWs)
    rw [← hct] at hdec
    have hw₁ : ∀ c ∈ s.data.takeWhile jWs, pyWs c = true :=
      fun c hcm => pyWs_of_jWs c (List.mem_takeWhile_imp hcm)
    have hctr : ct.reverse = cE :: pre.reverse := by
      rw [hshape]
      simp
    have hA : s.data.dropWhile pyWs = s.data.dropWhile jWs := by
      conv_lhs => rw [← List.takeWhile_append_dropWhile jWs s.data]
      rw [dropWhile_append_all _ _ hw₁, hdec, hcc]
      simp [List.cons_append, List.dropWhile_cons, hpw0]
    have hB : (s.data.dropWhile jWs).reverse.dropWhile pyWs = ct.reverse := by
      rw [hdec, List.reverse_append,
        dropWhile_append_all _ _
          (fun c hcm => pyWs_of_jWs c (hw₂ c (List.mem_reverse.mp hcm))),
        hctr, List.dropWhile_cons, if_neg (by simp [hpwE])]
    have hC : pyStripL s.data = ct := by
      unfold pyStripL
      rw [hA, hB, List.reverse_reverse]
    have hskip : ct.dropWhile jWs = ct := by
      rw [hcc]
      simp [List.dropWhile_cons, hjw0]
    have htrim : trimEndJws ct = ct := by
      unfold trimEndJws
      rw [hctr, List.dropWhile_cons, if_neg (by simp [hjwE]), ← hctr,
        List.reverse_reverse]
    rw [hC]
    unfold json_loads
    show (match parseCore ((trimEndJws (ct.dropWhile jWs)).length + 1) .val
        (trimEndJws (ct.dropWhile jWs)) with
      | some (v, []) => some v
      | _ => none) = some v'
    rw [hskip, htrim, heq]

/-- C6 (amended): for every string that parses as JSON and does not itself
contain three consecutive backticks, the code-fence-stripping step applied to
its fenced form (with or without the `json` tag) yields a string that parses
to the same JSON value — the single `stripCodeFence` definition is the
stripping step of both LLM-output parse sites. -/
theorem claim_C6 (s : String) (v : Json) (tag : Bool)
    (h : json_loads s = some v)
    (hns : hasInfix ['`', '`', '`'] s.data = false) :
    json_loads (stripCodeFence (fenceWrap tag s)) = some v := by
  rw [stripCodeFence_fenceWrap tag s hns]
  exact json_loads_pyStrip s v h

/-- Counterexample to C6 as stated: a JSON string whose content contains
three backticks parses, but its fenced form is mangled by the
occurrence-based `replace` and parses to a different value. -/
theorem claim_C6_counterexample :
    json_loads "\"a```b\"" = some (.str "a```b") ∧
    json_loads (stripCodeFence (fenceWrap true "\"a```b\"")) = some (.str "ab") ∧
    ("a```b" : String) ≠ "ab" :=
  ⟨rfl, rfl, by decide⟩

/-- Witness for C6 (amended) at a backtick-free payload, in both fence
shapes. -/
theorem claim_C6_witness :
    json_loads " [1] " = some (.arr [.num "1"]) ∧
    hasInfix ['`', '`', '`'] " [1] ".data = false ∧
    json_loads (stripCodeFence (fenceWrap true " [1] ")) = some (.arr [.num "1"]) ∧
    json_loads (stripCodeFence (fenceWrap false " [1] ")) = some (.arr [.num "1"]) :=
  ⟨rfl, by decide, claim_C6 " [1] " _ true rfl (by decide),
   claim_C6 " [1] " _ false rfl (by decide)⟩
